import Mathlib

/-
Verification of the lexical reformatting engine of `python_formatter.py`.

The formatter operates on plain text; we embed text as `List Char` and
lines as `List (List Char)`, mirroring the Python string primitives
(`rstrip`, `count`, `endswith`, `split('\n')`, ...) used by the source.
The characters `'` and `"` are written via `\x27`/`\x22` escapes and
braces via `\x7b`/`\x7d` throughout.
-/

namespace PyFmt

/-- Text is a list of characters (one Python `str`). -/
abbrev Str := List Char

/-- The single-quote character `'`. -/
def sq : Char := '\x27'

/-- The double-quote character `"`. -/
def dq : Char := '\x22'

/-- The backslash character. -/
def bs : Char := '\\'

/-- The opening curly brace. -/
def obr : Char := '\x7b'

/-- The closing curly brace. -/
def cbr : Char := '\x7d'

/-- Python `str.strip` whitespace (ASCII): space, tab, LF, CR, VT, FF. -/
def pyIsSpace (c : Char) : Bool :=
  c = ' ' || c = '\t' || c = '\n' || c = '\r' || c = '\x0b' || c = '\x0c'

/-- Python `s.lstrip()`. -/
def lstrip (s : Str) : Str := s.dropWhile pyIsSpace

/-- Python `s.rstrip()`. -/
def rstrip (s : Str) : Str := (s.reverse.dropWhile pyIsSpace).reverse

/-- Python `s.strip()`. -/
def pyStrip (s : Str) : Str := lstrip (rstrip s)

/-- Python `s.startswith(p)`. -/
def startsWith : Str → Str → Bool
  | [], _ => true
  | _ :: _, [] => false
  | p :: ps, c :: cs => p = c && startsWith ps cs

/-- Python `s.endswith(p)`. -/
def endsWith (p s : Str) : Bool := startsWith p.reverse s.reverse

/-- Python `sub in s` (substring containment). -/
def containsSub (needle : Str) : Str → Bool
  | [] => startsWith needle []
  | c :: cs => startsWith needle (c :: cs) || containsSub needle cs

/-- Python `c in s` for a single character. -/
def containsChar (c : Char) : Str → Bool
  | [] => false
  | d :: ds => d = c || containsChar c ds

/-- Helper for `countSub`: `skip` characters still to pass over after a match. -/
def countSubGo (needle : Str) : Nat → Str → Nat
  | _, [] => 0
  | k + 1, _ :: cs => countSubGo needle k cs
  | 0, c :: cs =>
    if startsWith needle (c :: cs) then countSubGo needle (needle.length - 1) cs + 1
    else countSubGo needle 0 cs

/-- Python `s.count(needle)` for a non-empty needle: non-overlapping,
left-to-right. -/
def countSub (needle s : Str) : Nat := countSubGo needle 0 s

/-- Python `s.count(c)` for a single character. -/
def countChar (c : Char) (s : Str) : Nat := s.countP (· = c)

/-- Helper for `findChar`. -/
def findCharGo (c : Char) : Nat → Str → Int
  | _, [] => -1
  | i, x :: xs => if x = c then (i : Int) else findCharGo c (i + 1) xs

/-- Python `s.find(c)` for a single character: first index, or `-1`. -/
def findChar (c : Char) (s : Str) : Int := findCharGo c 0 s

/-- Helper for `rfindChar`. -/
def rfindCharGo (c : Char) : Nat → Str → Int
  | _, [] => -1
  | i, x :: xs => if x = c then max (i : Int) (rfindCharGo c (i + 1) xs) else rfindCharGo c (i + 1) xs

/-- Python `s.rfind(c)` for a single character: last index, or `-1`. -/
def rfindChar (c : Char) (s : Str) : Int := rfindCharGo c 0 s

/-- Helper for `replaceSub`: `skip` characters already consumed by a match. -/
def replaceSubGo (old new : Str) : Nat → Str → Str
  | _, [] => []
  | k + 1, _ :: cs => replaceSubGo old new k cs
  | 0, c :: cs =>
    if startsWith old (c :: cs) then new ++ replaceSubGo old new (old.length - 1) cs
    else c :: replaceSubGo old new 0 cs

/-- Python `s.replace(old, new)` for a non-empty `old`: non-overlapping,
left-to-right. -/
def replaceSub (old new s : Str) : Str := replaceSubGo old new 0 s

/-- The text up to (excluding) the first occurrence of `c`:
Python `s.split(c)[0]`. -/
def takeUntilChar (c : Char) : Str → Str
  | [] => []
  | x :: xs => if x = c then [] else x :: takeUntilChar c xs

/-- Python `s.split('\n')`: always non-empty, `''.split('\n') == ['']`. -/
def splitLinesGo : Str → List Str
  | [] => [[]]
  | c :: cs =>
    if c = '\n' then [] :: splitLinesGo cs
    else match splitLinesGo cs with
      | [] => [[c]]
      | l :: ls => (c :: l) :: ls

/-- Python `code.split('\n')`. -/
def splitLines (s : Str) : List Str := splitLinesGo s

/-- Python `'\n'.join(lines)`. -/
def joinLines : List Str → Str
  | [] => []
  | [l] => l
  | l :: ls => l ++ '\n' :: joinLines ls

/-- Python `sep.join(parts)` with a one-character separator. -/
def joinSep (sep : Char) : List Str → Str
  | [] => []
  | [l] => l
  | l :: ls => l ++ sep :: joinSep sep ls

/-! ## `add_semicolons` (python_formatter.py lines 283-444)

Processed line by line; the loop state carries `in_multiline_comment`,
`multiline_quote` and `bracket_depth`.  `multiline_quote` is only
consulted while `inMultiline` is set (the source initialises it to
`None` and assigns it before entering that state). -/

/-- Loop state of `add_semicolons`. -/
structure SemiState where
  inMultiline : Bool
  multilineQuote : Str
  bracketDepth : Int
deriving DecidableEq, Repr

/-- Initial state of the `add_semicolons` loop. -/
def semiInit : SemiState := ⟨false, [], 0⟩

/-- The inline-comment scanner of `add_semicolons` (source lines 364-383):
finds the first `#` outside a (heuristically tracked) single-quoted or
double-quoted string; `-1` if none.  `prev` is the previously seen
character (for the escape check `stripped[i-1] != '\\'`). -/
def findCommentPosGo : Bool → Option Char → Nat → Option Char → Str → Int
  | _, _, _, _, [] => -1
  | inString, strChar, i, prev, c :: rest =>
    if inString = false then
      if c = dq ∨ c = sq then
        if i = 0 ∨ ¬(prev = some bs) then findCommentPosGo true (some c) (i + 1) (some c) rest
        else findCommentPosGo false strChar (i + 1) (some c) rest
      else if c = '#' then (i : Int)
      else findCommentPosGo false strChar (i + 1) (some c) rest
    else
      if some c = strChar then
        if i = 0 ∨ ¬(prev = some bs) then findCommentPosGo false none (i + 1) (some c) rest
        else findCommentPosGo true strChar (i + 1) (some c) rest
      else findCommentPosGo true strChar (i + 1) (some c) rest

/-- Entry point of the inline-comment scanner. -/
def findCommentPos (s : Str) : Int := findCommentPosGo false none 0 none s

/-- The flow-control keywords of `add_semicolons` (source line 404), in
source order. -/
def controlKeywords : List Str :=
  ["raise".toList, "return".toList, "break".toList, "continue".toList,
   "pass".toList, "yield".toList]

/-- The control-keyword test (source lines 405-414): a keyword counts when
`lstripped` starts with `keyword + ' '` or equals it, and the code part
before any `#` still shows the keyword. -/
def endsWithControl (stripped lstripped : Str) : Bool :=
  controlKeywords.any fun kw =>
    (startsWith (kw ++ [' ']) lstripped || lstripped == kw) &&
      (let codeOnly := rstrip (takeUntilChar '#' stripped)
       endsWith kw codeOnly || containsSub (kw ++ [' ']) codeOnly ||
         containsSub (kw ++ ['(']) codeOnly)

/-- The redundant-ending test of source lines 396 and 422:
`endswith( ( ';', ':', ',', '.', '\\', ' or', ' and' ) )`. -/
def endsPunct (s : Str) : Bool :=
  endsWith [';'] s || endsWith [':'] s || endsWith [','] s || endsWith ['.'] s ||
    endsWith [bs] s || endsWith " or".toList s || endsWith " and".toList s

/-- `endswith( ( '( ', '[ ', '{ ' ) )` (source lines 338 and 354) — note the
literals were themselves reformatted and carry a trailing space. -/
def endsOpenSpace (s : Str) : Bool :=
  endsWith ['(', ' '] s || endsWith ['[', ' '] s || endsWith [obr, ' '] s

/-- One iteration of the `add_semicolons` loop (source lines 291-442) on
`line`, with `next?` the following input line if any (used by the
block-header lookahead at lines 428-439).  Returns the updated state and
the single emitted line. -/
def addSemicolonsLine (st : SemiState) (line : Str) (next? : Option Str) :
    SemiState × Str :=
  let stripped := rstrip line
  let lstripped := lstrip stripped
  -- line 296-297: bracket counts (of the reformatted two-character literals)
  let openCount : Int := (countSub ['(', ' '] stripped : Int) +
    (countSub ['[', ' '] stripped : Int) + (countSub [obr, ' '] stripped : Int)
  let closeCount : Int := (countSub [' ', ')'] stripped : Int) +
    (countSub [' ', ']'] stripped : Int) + (countSub [' ', cbr] stripped : Int)
  -- line 300: skip empty lines
  if stripped = [] then (st, line)
  else if st.inMultiline = false then
    -- lines 305-313: multi-line comment start
    if startsWith [dq, dq, dq] lstripped || startsWith [sq, sq, sq] lstripped then
      let q := lstripped.take 3
      let stillIn := !(decide (countSub q stripped ≥ 2))
      ({ st with inMultiline := stillIn, multilineQuote := q }, line)
    -- line 321: single-line comments
    else if startsWith ['#'] lstripped then (st, line)
    -- lines 326-331: decorators
    else if startsWith ['@'] lstripped then
      (st, if endsWith [';'] stripped then stripped.dropLast else stripped)
    else
      -- line 334: remove a trailing `:;`
      let stripped := if endsWith [':', ';'] stripped then stripped.dropLast else stripped
      -- lines 338-341: line ends with opening bracket (dead after rstrip)
      if endsOpenSpace stripped then
        ({ st with bracketDepth := st.bracketDepth + openCount - closeCount }, stripped)
      else
        -- lines 344-345: identity replaces on the reformatted literals
        let stripped :=
          if containsSub ['(', ' '] stripped || containsSub ['[', ' '] stripped ||
              containsSub [obr, ' '] stripped then
            replaceSub [obr, ' '] [obr, ' ']
              (replaceSub ['[', ' '] ['[', ' ']
                (replaceSub ['(', ' '] ['(', ' '] stripped))
          else stripped
        -- lines 348-351
        let wasInside := decide (st.bracketDepth > 0)
        let st := { st with bracketDepth := st.bracketDepth + openCount - closeCount }
        -- lines 354-359
        if wasInside = true || endsOpenSpace stripped then
          (st, if endsWith [';'] stripped && !endsWith [':', ';'] stripped
               then stripped.dropLast else stripped)
        else
          let commentPos := findCommentPos stripped
          -- lines 385-400: inline comment handling
          if commentPos > 0 then
            let codePart := rstrip (stripped.take commentPos.toNat)
            let commentPart := stripped.drop commentPos.toNat
            if startsWith "raise".toList (lstrip codePart) then
              (st, codePart ++ ' ' :: commentPart)
            else if endsPunct codePart then (st, stripped)
            else (st, codePart ++ ';' :: ' ' :: commentPart)
          -- lines 402-418: flow-control keywords
          else if endsWithControl stripped lstripped then (st, stripped)
          -- line 422
          else if endsPunct stripped then (st, stripped)
          else
            -- lines 428-439: block-header lookahead for lines ending in ` )`
            let headerCase :=
              endsWith [' ', ')'] stripped &&
                (match next? with
                 | none => false
                 | some nxt =>
                   let currentIndent := line.length - (lstrip line).length
                   let nextIndent := nxt.length - (lstrip nxt).length
                   let nextStripped := pyStrip nxt
                   !(decide (nextStripped = [])) && !startsWith ['#'] nextStripped &&
                     decide (nextIndent > currentIndent))
            if headerCase then (st, stripped)
            -- line 442
            else (st, stripped ++ [';'])
  else
    -- lines 314-318: inside a multi-line comment
    (if containsSub st.multilineQuote stripped then { st with inMultiline := false }
     else st, line)

/-- The `add_semicolons` loop over all lines. -/
def addSemicolonsGo : SemiState → List Str → List Str
  | _, [] => []
  | st, l :: rest =>
    let r := addSemicolonsLine st l rest.head?
    r.2 :: addSemicolonsGo r.1 rest

/-- `add_semicolons` (source lines 283-444). -/
def add_semicolons (code : Str) : Str :=
  joinLines (addSemicolonsGo semiInit (splitLines code))

/-! ## `collapse_multiline_blocks` (python_formatter.py lines 7-128) -/

/-- The bracket table of source line 55: `{ '(': ')', '[': ']', '{': '}' }`. -/
def openBrackets : List (Char × Char) := [('(', ')'), ('[', ']'), (obr, cbr)]

/-- One step of the opening-bracket search (source lines 59-71): given the
state `(found_open?, open_pos)` accumulated over earlier brackets, examine
bracket `br`.  The candidate is accepted only if it is right of the current
candidate, the quote parity before it is even, and its closing bracket does
not occur after it on the same line. -/
def bracketStep (line : Str) (st : Option (Char × Char) × Int) (brcl : Char × Char) :
    Option (Char × Char) × Int :=
  let pos := rfindChar brcl.1 line
  if pos ≠ -1 ∧ pos > st.2 then
    let before := line.take pos.toNat
    let singleQ : Int := (countChar sq before : Int) - (countSub [bs, sq] before : Int)
    let doubleQ : Int := (countChar dq before : Int) - (countSub [bs, dq] before : Int)
    if singleQ % 2 = 0 ∧ doubleQ % 2 = 0 then
      let after := line.drop (pos.toNat + 1)
      if containsChar brcl.2 after then st else (some brcl, pos)
    else st
  else st

/-- The opening-bracket search over all three bracket kinds, in source order. -/
def findOpenBracket (line : Str) : Option (Char × Char) × Int :=
  openBrackets.foldl (bracketStep line) (none, -1)

/-- Collect lines until one containing the closing bracket (source lines
84-90): returns the lines before the closing line, the closing line if
found, and the remaining lines after it. -/
def collectBlock (cl : Char) : List Str → List Str × Option Str × List Str
  | [] => ([], none, [])
  | l :: ls =>
    if containsChar cl l then ([], some l, ls)
    else
      let r := collectBlock cl ls
      (l :: r.1, r.2.1, r.2.2)

/-- The collapse decision for a found block (source lines 92-120): either the
single flattened line, or the original lines of the block.  `line` is the
opening line, `firstSeg` the text after the opening bracket, `pre` the block
lines before the closing line, `closeLine` the line containing the closing
bracket. -/
def collapseDecision (maxLen : Nat) (line prefixPart : Str) (cl : Char)
    (firstSeg : Str) (pre : List Str) (closeLine : Str) : List Str :=
  let closePos := (findChar cl closeLine).toNat
  let suffix := pyStrip (closeLine.drop (closePos + 1))
  let lastTrunc := closeLine.take closePos
  let blockTrunc := firstSeg :: pre ++ [lastTrunc]
  let hasComment := (firstSeg :: pre).any (containsChar '#')
  let content := pyStrip (joinSep ' ' (blockTrunc.map pyStrip))
  let collapsed := prefixPart ++ ' ' :: content ++ ' ' :: [cl] ++
    (if suffix ≠ [] then ' ' :: suffix else [])
  if !hasComment ∧ collapsed.length ≤ maxLen then [collapsed]
  else line :: pre ++ [closeLine]

/-- The main loop of `collapse_multiline_blocks` (source lines 14-126),
written with a fuel parameter for structural recursion; every iteration
consumes at least one input line, so `fuel = ls.length` always suffices
(with exhausted fuel the remaining lines are emitted unchanged). -/
def cmbGo (maxLen : Nat) : Nat → Option Str → List Str → List Str
  | 0, _, ls => ls
  | _ + 1, _, [] => []
  | fuel + 1, some q, line :: rest =>
    -- lines 39-46: inside a triple-quoted string
    line :: cmbGo maxLen fuel (if containsSub q line then none else some q) rest
  | fuel + 1, none, line :: rest =>
    let stripped := lstrip line
    -- lines 19-37: triple-quote tracking (a count of 3 or more falls through)
    if containsSub [dq, dq, dq] stripped ∧ countSub [dq, dq, dq] stripped = 1 then
      line :: cmbGo maxLen fuel (some [dq, dq, dq]) rest
    else if containsSub [dq, dq, dq] stripped ∧ countSub [dq, dq, dq] stripped = 2 then
      line :: cmbGo maxLen fuel none rest
    else if containsSub [sq, sq, sq] stripped ∧ countSub [sq, sq, sq] stripped = 1 then
      line :: cmbGo maxLen fuel (some [sq, sq, sq]) rest
    else if containsSub [sq, sq, sq] stripped ∧ countSub [sq, sq, sq] stripped = 2 then
      line :: cmbGo maxLen fuel none rest
    -- lines 49-52: comments
    else if startsWith ['#'] stripped then line :: cmbGo maxLen fuel none rest
    else
      match findOpenBracket line with
      | (some brcl, pos) =>
        let prefixPart := line.take (pos.toNat + 1)
        let firstSeg := line.drop (pos.toNat + 1)
        let r := collectBlock brcl.2 rest
        (match r.2.1 with
         | some closeLine =>
           collapseDecision maxLen line prefixPart brcl.2 firstSeg r.1 closeLine ++
             cmbGo maxLen fuel none r.2.2
         | none => line :: cmbGo maxLen fuel none rest)
      | (none, _) => line :: cmbGo maxLen fuel none rest

/-- `collapse_multiline_blocks` (source lines 7-128); `max_len` defaults
to 200 at the call sites. -/
def collapse_multiline_blocks (code : Str) (maxLen : Nat) : Str :=
  joinLines (cmbGo maxLen (splitLines code).length none (splitLines code))

/-! ## `collapse_blank_lines` (python_formatter.py lines 206-257) -/

/-- Loop state of `collapse_blank_lines`: the open triple quote (if any)
and the current count of consecutive blank lines. -/
structure BlankState where
  inTriple : Option Str
  blanks : Nat
deriving DecidableEq, Repr

/-- One iteration of the `collapse_blank_lines` loop (source lines 217-255):
returns the updated state and the emitted lines (one or none).
A quote count of 3 or more falls through the `for`/`else` to the
ordinary-line handling, exactly as in the source. -/
def collapseBlankLine (st : BlankState) (line : Str) : BlankState × List Str :=
  match st.inTriple with
  | some q =>
    -- lines 249-255: inside a triple-quoted string, preserve everything
    (if containsSub q line then ⟨none, 0⟩ else st, [line])
  | none =>
    let stripped := pyStrip line
    if containsSub [dq, dq, dq] stripped ∧ countSub [dq, dq, dq] stripped = 1 then
      (⟨some [dq, dq, dq], 0⟩, [line])
    else if containsSub [dq, dq, dq] stripped ∧ countSub [dq, dq, dq] stripped = 2 then
      (⟨none, 0⟩, [line])
    else if containsSub [sq, sq, sq] stripped ∧ countSub [sq, sq, sq] stripped = 1 then
      (⟨some [sq, sq, sq], 0⟩, [line])
    else if containsSub [sq, sq, sq] stripped ∧ countSub [sq, sq, sq] stripped = 2 then
      (⟨none, 0⟩, [line])
    else if stripped = [] then
      -- lines 239-244: blank line, keep only the first of a run
      (⟨none, st.blanks + 1⟩, if st.blanks + 1 = 1 then [line] else [])
    else
      -- lines 246-248: non-blank line
      (⟨none, 0⟩, [line])

/-- The `collapse_blank_lines` loop over all lines. -/
def collapseBlankGo : BlankState → List Str → List Str
  | _, [] => []
  | st, l :: rest =>
    let r := collapseBlankLine st l
    r.2 ++ collapseBlankGo r.1 rest

/-- `collapse_blank_lines` (source lines 206-257). -/
def collapse_blank_lines (code : Str) : Str :=
  joinLines (collapseBlankGo ⟨none, 0⟩ (splitLines code))

/-! ## `remove_useless_fstrings` (python_formatter.py lines 259-281)

The source applies `re.sub` with the pattern
`\bf( [ "\'])(((?!(?<!\\)\1).)*?)\1` — its group 1 was itself
reformatted and now matches a SPACE followed by one of space, `"`, `'`.
The pattern is hand-compiled here: a match at a position requires a word
boundary, the letter `f`, a space, a quote-class character `c2`; the lazy
body then runs to the first recurrence of the two-character group text
`' ' :: c2` (Python `.` without DOTALL excludes newlines, so a newline in
the body aborts the match). -/

/-- Python `\w` (ASCII range, as used by the word-boundary `\b`). -/
def isWordChar (c : Char) : Bool := c.isAlpha || c.isDigit || c = '_'

/-- Lazy body scan: find the shortest newline-free body followed by the
two-character backreference `[' ', c2]`; returns the body and the text
after the closing backreference. -/
def fstrBody (c2 : Char) : Str → Option (Str × Str)
  | [] => none
  | [_] => none
  | x :: y :: rest =>
    if x = ' ' ∧ y = c2 then some ([], rest)
    else if x = '\n' then none
    else match fstrBody c2 (y :: rest) with
      | some (body, tail) => some (x :: body, tail)
      | none => none

/-- Try to match the hand-compiled f-string pattern at the current
position; `prev` is the character before it (for `\b`).  On success,
returns the replacement text produced by `replace_fstring` (source lines
264-274) and the total length of the matched text. -/
def fstrTryMatch (prev : Option Char) : Str → Option (Str × Nat)
  | c0 :: c1 :: c2 :: rest =>
    if c0 = 'f' ∧ (match prev with | none => true | some p => !isWordChar p) = true ∧
        c1 = ' ' ∧ (c2 = ' ' ∨ c2 = dq ∨ c2 = sq) then
      match fstrBody c2 rest with
      | some (body, _) =>
        -- group 1 is the two characters `' ' :: c2`; `replace_fstring`
        -- keeps the match when the content has placeholders `{ ` and ` }`
        let g1 : Str := [c1, c2]
        if containsSub [obr, ' '] body ∧ containsSub [' ', cbr] body then
          some ('f' :: g1 ++ body ++ g1, 5 + body.length)
        else
          some (g1 ++ body ++ g1, 5 + body.length)
      | none => none
    else none
  | _ => none

/-- The `re.sub` scan for `remove_useless_fstrings`: left-to-right,
non-overlapping; `skip` characters of an accepted match remain to pass
over (their replacement was already emitted). -/
def fstrGo (prev : Option Char) : Nat → Str → Str
  | _, [] => []
  | k + 1, c :: rest => fstrGo (some c) k rest
  | 0, c :: rest =>
    match fstrTryMatch prev (c :: rest) with
    | some (repl, matchLen) => repl ++ fstrGo (some c) (matchLen - 1) rest
    | none => c :: fstrGo (some c) 0 rest

/-- `remove_useless_fstrings` (source lines 259-281). -/
def remove_useless_fstrings (code : Str) : Str := fstrGo none 0 code

/-! ## `add_spaces_inside_brackets` (python_formatter.py lines 161-204)

The function splits on a string-matching pattern and rewrites only the
non-string segments.  Both the splitting pattern and the two rewriting
patterns were themselves reformatted in the source; they are
hand-compiled here exactly as Python's `re` interprets the reformatted
text (verified against the engine's backtracking semantics).

The splitting pattern (source line 171) is an alternation of four
branches inside one capture group:
* branch 1: two literal spaces, `"""`, any run not containing `"""`,
  then `"""`;
* branch 2: `'''`, then repetitions of capture group 2 — either an
  optional space, `:`, one of space/`^`/`'`, or `'` followed by capture
  group 3 (optional space, `!`, `''`, space) and a space — then `'''`;
* branch 3: `"`, repetitions of (any char except `"`, `\`, space — or
  `\`, any char, space), then `"`;
* branch 4: like branch 3 with `'`.
-/

/-- Branch 1 body: shortest run up to the next `"""`; returns the run and
the text after the closing `"""`. -/
def scanTripleDq : Str → Option (Str × Str)
  | [] => none
  | c :: rest =>
    if startsWith [dq, dq, dq] (c :: rest) then some ([], rest.drop 2)
    else match scanTripleDq rest with
      | some (b, r) => some (c :: b, r)
      | none => none

/-- Branch-1 matcher: requires the two literal spaces and the opening
`"""`.  Returns (matched text, remainder). -/
def alt1Match (s : Str) : Option (Str × Str) :=
  match s with
  | c1 :: c2 :: c3 :: c4 :: c5 :: rest =>
    if c1 = ' ' ∧ c2 = ' ' ∧ c3 = dq ∧ c4 = dq ∧ c5 = dq then
      match scanTripleDq rest with
      | some (body, r) =>
        some ([' ', ' ', dq, dq, dq] ++ body ++ [dq, dq, dq], r)
      | none => none
    else none
  | _ => none

/-- The candidate single repetitions of branch 2's capture group 2, in the
engine's backtracking priority order.  Each candidate is
(consumed text, group-3 capture if the repetition used the `'`-branch,
remainder). -/
def alt2Cands (s : Str) : List (Str × Option Str × Str) :=
  (match s with
   | ' ' :: ':' :: c :: r =>
     if c = ' ' ∨ c = '^' ∨ c = sq then [([' ', ':', c], none, r)] else []
   | _ => []) ++
  (match s with
   | ':' :: c :: r =>
     if c = ' ' ∨ c = '^' ∨ c = sq then [([':', c], none, r)] else []
   | _ => []) ++
  (match s with
   | c1 :: ' ' :: '!' :: c4 :: c5 :: ' ' :: ' ' :: r =>
     if c1 = sq ∧ c4 = sq ∧ c5 = sq then
       [([c1, ' ', '!', c4, c5, ' ', ' '], some [' ', '!', c4, c5, ' '], r)]
     else []
   | _ => []) ++
  (match s with
   | c1 :: '!' :: c3 :: c4 :: ' ' :: ' ' :: r =>
     if c1 = sq ∧ c3 = sq ∧ c4 = sq then
       [([c1, '!', c3, c4, ' ', ' '], some ['!', c3, c4, ' '], r)]
     else []
   | _ => [])

/-- Branch 2's greedy star followed by the closing `'''`, with full
backtracking (repetitions preferred over closing) and last-participation
capture semantics for groups 2 and 3.  Returns
(consumed text including the closing quotes, group 2, group 3, remainder). -/
def alt2Star : Nat → Option Str → Option Str → Str →
    Option (Str × Option Str × Option Str × Str)
  | 0, _, _, _ => none
  | fuel + 1, g2, g3, s =>
    let viaRep := (alt2Cands s).findSome? fun cand =>
      match alt2Star fuel (some cand.1) (cand.2.1.elim g3 some) cand.2.2 with
      | some (consumed, g2x, g3x, rest) => some (cand.1 ++ consumed, g2x, g3x, rest)
      | none => none
    match viaRep with
    | some r => some r
    | none =>
      if startsWith [sq, sq, sq] s then some ([sq, sq, sq], g2, g3, s.drop 3)
      else none

/-- Branch-2 matcher: opening `'''`, star, closing `'''`. -/
def alt2Match (s : Str) : Option (Str × Option Str × Option Str × Str) :=
  match s with
  | c1 :: c2 :: c3 :: rest =>
    if c1 = sq ∧ c2 = sq ∧ c3 = sq then
      match alt2Star s.length none none rest with
      | some (consumed, g2, g3, r) => some ([sq, sq, sq] ++ consumed, g2, g3, r)
      | none => none
    else none
  | _ => none

/-- Branches 3/4 body: repetitions of (a char other than the quote,
backslash and space — or backslash, any char, space), then the closing
quote; deterministic by the leading character.  Returns the consumed text
including the closing quote and the remainder. -/
def strBodyGo (q : Char) : Str → Option (Str × Str)
  | [] => none
  | c :: rest =>
    if c = q then some ([q], rest)
    else if c = bs then
      match rest with
      | c2 :: ' ' :: rest3 =>
        match strBodyGo q rest3 with
        | some (b, r) => some (bs :: c2 :: ' ' :: b, r)
        | none => none
      | _ => none
    else if c = ' ' then none
    else match strBodyGo q rest with
      | some (b, r) => some (c :: b, r)
      | none => none

/-- Branch-3/4 matcher for quote character `q`. -/
def strMatch (q : Char) (s : Str) : Option (Str × Str) :=
  match s with
  | c :: rest =>
    if c = q then
      match strBodyGo q rest with
      | some (b, r) => some (q :: b, r)
      | none => none
    else none
  | [] => none

/-- The full splitting pattern: branches tried in source order at one
position.  Returns (group 1 = matched text, group 2, group 3, remainder). -/
def stringPatternMatch (s : Str) : Option (Str × Option Str × Option Str × Str) :=
  match alt1Match s with
  | some (m, r) => some (m, none, none, r)
  | none =>
    match alt2Match s with
    | some r => some r
    | none =>
      match strMatch dq s with
      | some (m, r) => some (m, none, none, r)
      | none =>
        match strMatch sq s with
        | some (m, r) => some (m, none, none, r)
        | none => none

/-- `re.split` with the splitting pattern: the resulting parts, in order,
with `none` for non-participating capture groups (three capture groups
per match). -/
def splitPartsGo : Nat → Str → Str → List (Option Str)
  | _, acc, [] => [some acc.reverse]
  | k + 1, acc, _ :: rest => splitPartsGo k acc rest
  | 0, acc, c :: rest =>
    match stringPatternMatch (c :: rest) with
    | some (m, g2, g3, _) =>
      some acc.reverse :: some m :: g2 :: g3 :: splitPartsGo (m.length - 1) [] rest
    | none => splitPartsGo 0 (c :: acc) rest

/-- The `?`-quantified space of the rewriting patterns, greedy with
backtracking. -/
def optSpace (p : Str → Option Str) (s : Str) : Option Str :=
  match s with
  | c :: r =>
    if c = ' ' then
      match p r with
      | some t => some t
      | none => p (c :: r)
    else p (c :: r)
  | [] => p []

/-- The mandatory part of group 1 of the first rewriting pattern:
`<`, `=`, one of space/`(`/`[`/`{`, space. -/
def sub1G1core : Str → Option Str
  | a :: b :: c :: d :: r =>
    if a = '<' ∧ b = '=' ∧ (c = ' ' ∨ c = '(' ∨ c = '[' ∨ c = obr) ∧ d = ' '
    then some r else none
  | _ => none

/-- Group 1 of the first rewriting pattern (source line 179): optional
space, `<`, `=`, one of space/`(`/`[`/`{`, space. -/
def sub1G1 : Str → Option Str := optSpace sub1G1core

/-- Group 2 of the first rewriting pattern: optional space, `!`, a
whitespace character, space. -/
def sub1G2 : Str → Option Str :=
  optSpace fun s =>
    match s with
    | '!' :: w :: ' ' :: r => if pyIsSpace w then some r else none
    | _ => none

/-- Group 3 of the first rewriting pattern: optional space, `!`, one of
space/`)`, space, `}`, space, `]`, space. -/
def sub1G3 : Str → Option Str :=
  optSpace fun s =>
    match s with
    | '!' :: c :: ' ' :: c4 :: ' ' :: c6 :: ' ' :: r =>
      if (c = ' ' ∨ c = ')') ∧ c4 = cbr ∧ c6 = ']' then some r else none
    | _ => none

/-- Match length of the first rewriting pattern at the current position. -/
def sub1TryMatch (s : Str) : Option Nat :=
  match sub1G1 s with
  | some r1 =>
    match sub1G2 r1 with
    | some r2 =>
      match sub1G3 r2 with
      | some r3 => some (s.length - r3.length)
      | none => none
    | none => none
  | none => none

/-- The mandatory part of group 1 of the second rewriting pattern:
`<`, `!`, a whitespace character, space. -/
def sub2G1core : Str → Option Str
  | a :: b :: w :: d :: r =>
    if a = '<' ∧ b = '!' ∧ pyIsSpace w = true ∧ d = ' ' then some r else none
  | _ => none

/-- Group 1 of the second rewriting pattern (source line 185): optional
space, `<`, `!`, a whitespace character, space. -/
def sub2G1 : Str → Option Str := optSpace sub2G1core

/-- Group 2 of the second rewriting pattern: optional space, `<`, `!`,
one of space/`(`/`[`/`{`, space. -/
def sub2G2 : Str → Option Str :=
  optSpace fun s =>
    match s with
    | '<' :: '!' :: c :: ' ' :: r =>
      if c = ' ' ∨ c = '(' ∨ c = '[' ∨ c = obr then some r else none
    | _ => none

/-- Group 3 of the second rewriting pattern: optional space, `=`, one of
space/`)`, space, `}`, space, `]`, space. -/
def sub2G3 : Str → Option Str :=
  optSpace fun s =>
    match s with
    | '=' :: c :: ' ' :: c4 :: ' ' :: c6 :: ' ' :: r =>
      if (c = ' ' ∨ c = ')') ∧ c4 = cbr ∧ c6 = ']' then some r else none
    | _ => none

/-- Match length of the second rewriting pattern at the current position. -/
def sub2TryMatch (s : Str) : Option Nat :=
  match sub2G1 s with
  | some r1 =>
    match sub2G2 r1 with
    | some r2 =>
      match sub2G3 r2 with
      | some r3 => some (s.length - r3.length)
      | none => none
    | none => none
  | none => none

/-- `re.sub(pattern, ' ', text)` for the first rewriting pattern:
left-to-right, non-overlapping; each match is replaced by one space. -/
def sub1Go : Nat → Str → Str
  | _, [] => []
  | k + 1, _ :: rest => sub1Go k rest
  | 0, c :: rest =>
    match sub1TryMatch (c :: rest) with
    | some len => ' ' :: sub1Go (len - 1) rest
    | none => c :: sub1Go 0 rest

/-- `re.sub(pattern, ' ', text)` for the second rewriting pattern. -/
def sub2Go : Nat → Str → Str
  | _, [] => []
  | k + 1, _ :: rest => sub2Go k rest
  | 0, c :: rest =>
    match sub2TryMatch (c :: rest) with
    | some len => ' ' :: sub2Go (len - 1) rest
    | none => c :: sub2Go 0 rest

/-- `add_spaces_to_segment` (source lines 173-187): the two rewrites in
source order. -/
def add_spaces_to_segment (text : Str) : Str := sub2Go 0 (sub1Go 0 text)

/-- The loop of source lines 193-202: `enumerate` over the split parts,
skipping `None` groups but counting them, rewriting even-indexed parts. -/
def addSpacesParts : Nat → List (Option Str) → Str
  | _, [] => []
  | i, none :: rest => addSpacesParts (i + 1) rest
  | i, some p :: rest =>
    (if i % 2 = 0 then add_spaces_to_segment p else p) ++ addSpacesParts (i + 1) rest

/-- `add_spaces_inside_brackets` (source lines 161-204). -/
def add_spaces_inside_brackets (code : Str) : Str :=
  addSpacesParts 0 (splitPartsGo 0 [] code)

/-! ## The full pipeline (python_formatter.py lines 463-467 / 489-493) -/

/-- The formatting pipeline applied by `__main__`:
`remove_useless_fstrings`, `add_spaces_inside_brackets`,
`add_semicolons`, `collapse_multiline_blocks` (with the default
`max_len = 200`), then `collapse_blank_lines`. -/
def formatPipeline (code : Str) : Str :=
  collapse_blank_lines
    (collapse_multiline_blocks
      (add_semicolons
        (add_spaces_inside_brackets
          (remove_useless_fstrings code))) 200)

end PyFmt

namespace PyFmt

/-! ## Helper lemmas about the string primitives -/

theorem startsWith_iff_append {p s : Str} :
    startsWith p s = true ↔ ∃ t, s = p ++ t := by
  induction p generalizing s with
  | nil => simp [startsWith]
  | cons c cs ih =>
    cases s with
    | nil => simp [startsWith]
    | cons d ds =>
      simp only [startsWith, Bool.and_eq_true, decide_eq_true_eq, ih, List.cons_append]
      constructor
      · rintro ⟨rfl, t, rfl⟩
        exact ⟨t, rfl⟩
      · rintro ⟨t, ht⟩
        injection ht with h1 h2
        exact ⟨h1.symm, t, h2⟩

theorem rstrip_idem (s : Str) : rstrip (rstrip s) = rstrip s := by
  unfold rstrip
  rw [List.reverse_reverse, List.dropWhile_idempotent]

theorem lstrip_of_rstrip_ne_nil {s : Str} (h : lstrip (rstrip s) ≠ []) :
    rstrip s ≠ [] := by
  intro hn; rw [hn] at h; exact h rfl

theorem takeUntilChar_eq_self {c : Char} {s : Str}
    (h : containsChar c s = false) : takeUntilChar c s = s := by
  induction s with
  | nil => rfl
  | cons d ds ih =>
    rw [containsChar, Bool.or_eq_false_iff] at h
    have hd : ¬d = c := by
      have := h.1; simpa using this
    rw [takeUntilChar, if_neg hd, ih h.2]

theorem findCommentPosGo_no_hash {s : Str} (h : containsChar '#' s = false) :
    ∀ b sc i p, findCommentPosGo b sc i p s = -1 := by
  induction s with
  | nil => intro b sc i p; rfl
  | cons d ds ih =>
    intro b sc i p
    rw [containsChar, Bool.or_eq_false_iff] at h
    have hd : ¬d = '#' := by have := h.1; simpa using this
    have ih' := ih h.2
    cases b with
    | false =>
      simp only [findCommentPosGo, reduceIte]
      rw [if_neg hd]
      repeat' split
      all_goals exact ih' _ _ _ _
    | true =>
      simp only [findCommentPosGo, reduceIte]
      repeat' split
      all_goals exact ih' _ _ _ _

theorem findCommentPos_no_hash {s : Str} (h : containsChar '#' s = false) :
    findCommentPos s = -1 := findCommentPosGo_no_hash h false none 0 none

theorem startsWith_space_dropWhile (c : Char) (hc : pyIsSpace c = true) (p : Str)
    (l : Str) : startsWith (c :: p) (List.dropWhile pyIsSpace l) = false := by
  induction l with
  | nil => rfl
  | cons d ds ih =>
    rw [List.dropWhile_cons]
    by_cases hd : pyIsSpace d = true
    · rw [if_pos hd]; exact ih
    · rw [if_neg hd, startsWith]
      have hcd : ¬c = d := by rintro rfl; exact hd hc
      simp [hcd]

theorem endsWith_space_rstrip {c : Char} (hc : pyIsSpace c = true) (p : Str)
    (s : Str) : endsWith (p ++ [c]) (rstrip s) = false := by
  have hrev : (p ++ [c]).reverse = c :: p.reverse := by simp
  rw [endsWith, hrev, rstrip, List.reverse_reverse]
  exact startsWith_space_dropWhile c hc _ _

theorem replaceSubGo_self {old : Str} (hne : old ≠ []) :
    ∀ (s : Str) (k : Nat), replaceSubGo old old k s = s.drop k := by
  intro s
  induction s with
  | nil => intro k; cases k <;> rfl
  | cons c cs ih =>
    intro k
    cases k with
    | succ n => simpa [replaceSubGo] using ih n
    | zero =>
      rw [replaceSubGo, List.drop_zero]
      split
      · next hsw =>
        obtain ⟨t, ht⟩ := startsWith_iff_append.mp hsw
        rw [ih (old.length - 1)]
        obtain ⟨o, os, rfl⟩ : ∃ o os, old = o :: os := by
          cases old with
          | nil => exact absurd rfl hne
          | cons o os => exact ⟨o, os, rfl⟩
        simp only [List.cons_append, List.cons.injEq] at ht
        obtain ⟨rfl, rfl⟩ := ht
        rw [List.length_cons]
        simp [List.drop_left]
      · rw [ih 0, List.drop_zero]

theorem replaceSub_self {old : Str} (hne : old ≠ []) (s : Str) :
    replaceSub old old s = s := by
  simpa using replaceSubGo_self hne s 0

theorem containsSub_of_suffix {p t : Str} (h : containsSub p t = true) (s : Str) :
    containsSub p (s ++ t) = true := by
  induction s with
  | nil => simpa
  | cons c cs ih => simp [containsSub, ih]

theorem containsSub_of_startsWith {p s : Str} (h : startsWith p s = true) :
    containsSub p s = true := by
  cases s with
  | nil => simpa [containsSub] using h
  | cons c cs => simp [containsSub, h]

theorem startsWith_cons_ne {c d : Char} (h : ¬c = d) (p t : Str) :
    startsWith (c :: p) (d :: t) = false := by
  simp [startsWith, h]

theorem endsWith_iff_append {p s : Str} :
    endsWith p s = true ↔ ∃ u, s = u ++ p := by
  rw [endsWith, startsWith_iff_append]
  constructor
  · rintro ⟨t, ht⟩
    refine ⟨t.reverse, ?_⟩
    have := congrArg List.reverse ht
    simpa using this
  · rintro ⟨u, rfl⟩
    exact ⟨u.reverse, by simp⟩

theorem endsWith_last_ne {c d : Char} (h : ¬c = d) (p u : Str) :
    endsWith (p ++ [c]) (u ++ [d]) = false := by
  rw [endsWith]
  simp only [List.reverse_append, List.reverse_cons, List.reverse_nil,
    List.nil_append, List.cons_append]
  exact startsWith_cons_ne h _ _

theorem endsOpenSpace_rstrip (s : Str) : endsOpenSpace (rstrip s) = false := by
  unfold endsOpenSpace
  have h1 := endsWith_space_rstrip (c := ' ') (by decide) ['('] s
  have h2 := endsWith_space_rstrip (c := ' ') (by decide) ['['] s
  have h3 := endsWith_space_rstrip (c := ' ') (by decide) [obr] s
  simp only [List.cons_append, List.nil_append] at h1 h2 h3
  rw [h1, h2, h3]
  rfl

theorem endsOpenSpace_append_colon (u : Str) : endsOpenSpace (u ++ [':']) = false := by
  unfold endsOpenSpace
  have h1 := endsWith_last_ne (show ¬ ' ' = ':' by decide) ['('] u
  have h2 := endsWith_last_ne (show ¬ ' ' = ':' by decide) ['['] u
  have h3 := endsWith_last_ne (show ¬ ' ' = ':' by decide) [obr] u
  simp only [List.cons_append, List.nil_append] at h1 h2 h3
  rw [h1, h2, h3]
  rfl

theorem endsOpenSpace_colonStrip (line : Str) :
    endsOpenSpace (if endsWith [':', ';'] (rstrip line) = true
      then (rstrip line).dropLast else rstrip line) = false := by
  split
  · next hcs =>
    obtain ⟨u, hu⟩ := endsWith_iff_append.mp hcs
    rw [hu, show u ++ [':', ';'] = (u ++ [':']) ++ [';'] by simp,
      List.dropLast_concat]
    exact endsOpenSpace_append_colon u
  · exact endsOpenSpace_rstrip line

/-! ## Claim theorems: concrete evaluations -/

/-- C1 (counterexample): the full pipeline is not idempotent.  On the
input `x = [ 1\n ]` one application yields `x = [ 1; ]`; the second
application appends a further semicolon (`x = [ 1; ];`), because the
collapsed line ends in `]` which `add_semicolons` does not treat as a
redundant ending. -/
theorem C1_counterexample :
    formatPipeline (formatPipeline "x = [ 1\n ]".toList) ≠
      formatPipeline "x = [ 1\n ]".toList := by decide

/-- C2 (evaluation at the failing input): `add_spaces_inside_brackets`
leaves the non-empty pairs `(x)` and `[1,2]` unpadded, contrary to the
claim (its own docstring promises `print(x) -> print( x )`): the
reformatted rewrite patterns of source lines 179 and 185 no longer match
a bare bracket. -/
theorem C2_no_bracket_padding :
    add_spaces_inside_brackets "(x)".toList = "(x)".toList ∧
      add_spaces_inside_brackets "[1,2]".toList = "[1,2]".toList ∧
      "(x)".toList ≠ "( x )".toList := by decide

/-- C3 (counterexample): a directive line with a trailing comment keeps a
semicolon already present before the comment marker (`pass; # c` is
emitted unchanged, the claim demands `pass # c`), and a directive
immediately followed by `(` gains a trailing terminator
(`return(x)` becomes `return(x);`). -/
theorem C3_counterexample :
    add_semicolons "pass; # c".toList = "pass; # c".toList ∧
      "pass; # c".toList ≠ "pass # c".toList ∧
      add_semicolons "return(x)".toList = "return(x);".toList := by decide

/-- C5 (evaluation at the failing input): on the spec's scenario input the
pipeline produces `my_list = [ ; 1, 2, 3; ] ;`, not the claimed
`my_list = [ 1, 2, 3 ];`: `add_semicolons` counts the two-character
strings `'( '`/`' )'` (source line 296), so the opening line
`my_list = [` is not recognised as an open bracket and receives a
semicolon, which the collapser then folds into the block. -/
theorem C5_scenario_divergence :
    formatPipeline "my_list = [\n    1,\n    2,\n    3\n]".toList =
        "my_list = [ ; 1, 2, 3; ] ;".toList ∧
      "my_list = [ ; 1, 2, 3; ] ;".toList ≠ "my_list = [ 1, 2, 3 ];".toList := by
  decide

/-- C8 (counterexample): an input with more closing than opening brackets
is not passed through unchanged — `add_semicolons` appends a terminator
to the bare `)` — and the rewriter surfaces no warning about malformed
nesting (no such warning exists in the source; `check_indentation` warns
about indentation only). -/
theorem C8_counterexample :
    add_semicolons ")".toList = ");".toList ∧ ");".toList ≠ ")".toList := by decide

/-- C10 (evaluation at the failing input): `remove_useless_fstrings`
leaves `f"{x}"` unchanged — the reformatted pattern of source line 278
requires a space between `f` and the quote — contrary to the claim (and
the function's docstring), which demand the `f` prefix to be removed. -/
theorem C10_fstring_prefix_kept :
    remove_useless_fstrings "f\x22\x7bx\x7d\x22".toList = "f\x22\x7bx\x7d\x22".toList ∧
      "f\x22\x7bx\x7d\x22".toList ≠ "\x22\x7bx\x7d\x22".toList := by decide

/-! ## Claim theorems: per-line properties of `add_semicolons` -/

/-- C6: a line processed while the `add_semicolons` state machine is inside
a triple-quoted string/comment span is emitted verbatim (trailing
characters untouched); likewise a line that is itself a single-line
comment (first significant character `#`) outside such a span. -/
theorem C6_span_lines_unchanged (st : SemiState) (line : Str) (next? : Option Str) :
    (st.inMultiline = true → (addSemicolonsLine st line next?).2 = line) ∧
    (st.inMultiline = false → startsWith ['#'] (lstrip (rstrip line)) = true →
      (addSemicolonsLine st line next?).2 = line) := by
  constructor
  · intro h
    simp only [addSemicolonsLine]
    rw [h]
    by_cases hb : rstrip line = []
    · rw [if_pos hb]
    · rw [if_neg hb, if_neg (by simp : ¬(true = false))]
  · intro h hhash
    obtain ⟨t, ht⟩ := startsWith_iff_append.mp hhash
    rw [List.singleton_append] at ht
    simp only [addSemicolonsLine]
    rw [h]
    by_cases hb : rstrip line = []
    · rw [if_pos hb]
    · rw [if_neg hb, if_pos rfl, ht]
      rw [startsWith_cons_ne (show ¬dq = '#' by decide),
        startsWith_cons_ne (show ¬sq = '#' by decide)]
      rw [if_neg (by simp), if_pos (by simp [startsWith])]

/-- C6 witness: the theorem applied to a concrete in-span line and a
concrete comment line. -/
theorem C6_witness :
    (addSemicolonsLine ⟨true, [dq, dq, dq], 0⟩ "abc )".toList none).2 =
        "abc )".toList ∧
      (addSemicolonsLine semiInit "  # note".toList none).2 = "  # note".toList :=
  ⟨(C6_span_lines_unchanged ⟨true, [dq, dq, dq], 0⟩ "abc )".toList none).1 rfl,
   (C6_span_lines_unchanged semiInit "  # note".toList none).2 rfl (by decide)⟩

/-- C7: when `add_semicolons` processes a line carrying a trailing inline
comment (a `#` found by its scanner after some code, outside brackets and
spans), any terminator it inserts lands immediately before the comment
marker — the emitted line is either unchanged or
`codePart ++ "; " ++ commentPart`, never `line ++ ";"` — and if the code
part is a `raise` statement no terminator is inserted at all. -/
theorem C7_comment_terminator_placement
    (st : SemiState) (line : Str) (next? : Option Str)
    (stripped1 codePart commentPart : Str) (pos : Int)
    (hm : st.inMultiline = false) (hd : st.bracketDepth = 0)
    (hb : ¬rstrip line = [])
    (h3 : startsWith [dq, dq, dq] (lstrip (rstrip line)) = false)
    (h4 : startsWith [sq, sq, sq] (lstrip (rstrip line)) = false)
    (h5 : startsWith ['#'] (lstrip (rstrip line)) = false)
    (h6 : startsWith ['@'] (lstrip (rstrip line)) = false)
    (hs1 : stripped1 = if endsWith [':', ';'] (rstrip line) = true
        then (rstrip line).dropLast else rstrip line)
    (hpos : pos = findCommentPos stripped1)
    (hgt : pos > 0)
    (hcp : codePart = rstrip (stripped1.take pos.toNat))
    (hcm : commentPart = stripped1.drop pos.toNat) :
    (startsWith "raise".toList (lstrip codePart) = true →
        (addSemicolonsLine st line next?).2 = codePart ++ ' ' :: commentPart) ∧
    (startsWith "raise".toList (lstrip codePart) = false →
        (addSemicolonsLine st line next?).2 = stripped1 ∨
        (addSemicolonsLine st line next?).2 = codePart ++ ';' :: ' ' :: commentPart) := by
  have heos : endsOpenSpace stripped1 = false := by
    rw [hs1]; exact endsOpenSpace_colonStrip line
  have hmain : (addSemicolonsLine st line next?).2 =
      (if startsWith "raise".toList (lstrip codePart) = true
        then codePart ++ ' ' :: commentPart
        else if endsPunct codePart = true then stripped1
        else codePart ++ ';' :: ' ' :: commentPart) := by
    simp only [addSemicolonsLine]
    rw [if_neg hb, hm, if_pos rfl, h3, h4]
    rw [if_neg (by simp), h5, if_neg (by simp), h6, if_neg (by simp)]
    rw [← hs1]
    rw [if_neg (by rw [heos]; simp)]
    rw [replaceSub_self (show ['(', ' '] ≠ [] by decide),
      replaceSub_self (show ['[', ' '] ≠ [] by decide),
      replaceSub_self (show [obr, ' '] ≠ [] by decide), ite_self]
    rw [hd]
    rw [if_neg (by rw [heos]; simp)]
    rw [← hpos, if_pos hgt, ← hcp, ← hcm]
    by_cases hr : startsWith "raise".toList (lstrip codePart) = true
    · rw [if_pos hr, if_pos hr]
    · rw [if_neg hr, if_neg hr]
      by_cases hp : endsPunct codePart = true
      · rw [if_pos hp, if_pos hp]
      · rw [if_neg hp, if_neg hp]
  constructor
  · intro hr
    rw [hmain, if_pos hr]
  · intro hr
    rw [hmain, if_neg (by rw [hr]; simp)]
    by_cases hp : endsPunct codePart = true
    · rw [if_pos hp]; exact Or.inl rfl
    · rw [if_neg hp]; exact Or.inr rfl

/-- C7 witness: the theorem applied to a `raise` line and an ordinary
assignment, both with a trailing comment. -/
theorem C7_witness :
    (addSemicolonsLine semiInit "raise E  # c".toList none).2 = "raise E # c".toList ∧
      ((addSemicolonsLine semiInit "x = 1  # note".toList none).2 =
          "x = 1  # note".toList ∨
        (addSemicolonsLine semiInit "x = 1  # note".toList none).2 =
          "x = 1; # note".toList) := by
  constructor
  · exact (C7_comment_terminator_placement semiInit "raise E  # c".toList none
      "raise E  # c".toList "raise E".toList "# c".toList 9 rfl rfl (by decide)
      (by decide) (by decide) (by decide) (by decide) (by decide) (by decide)
      (by decide) (by decide) (by decide)).1 (by decide)
  · exact (C7_comment_terminator_placement semiInit "x = 1  # note".toList none
      "x = 1  # note".toList "x = 1".toList "# note".toList 7 rfl rfl (by decide)
      (by decide) (by decide) (by decide) (by decide) (by decide) (by decide)
      (by decide) (by decide) (by decide)).2 (by decide)

theorem endsWith_append_self (p u : Str) : endsWith p (u ++ p) = true :=
  endsWith_iff_append.mpr ⟨u, rfl⟩

theorem lstrip_decomp (s : Str) : s = s.takeWhile pyIsSpace ++ lstrip s :=
  (List.takeWhile_append_dropWhile (p := pyIsSpace) (l := s)).symm

/-- C3 (amended): a line whose first significant token is one of the flow
control keywords followed by a space (or standing alone), containing no
`#`, not ending in `:;`, processed at bracket depth 0 outside any span,
is emitted as its right-stripped self: no terminator is appended (and
nothing else is changed). -/
theorem C3_directive_no_terminator
    (st : SemiState) (line : Str) (next? : Option Str) (kw : Str)
    (hm : st.inMultiline = false) (hd : st.bracketDepth = 0)
    (hkw : kw ∈ controlKeywords)
    (hstart : startsWith (kw ++ [' ']) (lstrip (rstrip line)) = true ∨
      lstrip (rstrip line) = kw)
    (hnohash : containsChar '#' (rstrip line) = false)
    (hnc : endsWith [':', ';'] (rstrip line) = false) :
    (addSemicolonsLine st line next?).2 = rstrip line := by
  -- the head character of every control keyword is a lower-case letter
  have hkwAll : ∀ k ∈ controlKeywords, k ≠ [] ∧ ¬dq = k.headD ' ' ∧
      ¬sq = k.headD ' ' ∧ ¬ '#' = k.headD ' ' ∧ ¬ '@' = k.headD ' ' := by decide
  obtain ⟨hkne, hh1, hh2, hh3, hh4⟩ := hkwAll kw hkw
  obtain ⟨kc, kcs, rfl⟩ : ∃ c cs, kw = c :: cs := by
    cases kw with
    | nil => exact absurd rfl hkne
    | cons c cs => exact ⟨c, cs, rfl⟩
  simp only [List.headD_cons] at hh1 hh2 hh3 hh4
  have hhead : ∃ t', lstrip (rstrip line) = kc :: t' := by
    rcases hstart with h | h
    · obtain ⟨t, ht⟩ := startsWith_iff_append.mp h
      exact ⟨kcs ++ [' '] ++ t, by rw [ht]; simp⟩
    · exact ⟨kcs, h⟩
  obtain ⟨t', ht'⟩ := hhead
  have hb : ¬rstrip line = [] := by
    intro hz
    rw [hz] at ht'
    simp [lstrip] at ht'
  have hcodeOnly : rstrip (takeUntilChar '#' (rstrip line)) = rstrip line := by
    rw [takeUntilChar_eq_self hnohash, rstrip_idem]
  have hctrl : endsWithControl (rstrip line) (lstrip (rstrip line)) = true := by
    unfold endsWithControl
    refine List.any_eq_true.mpr ⟨kc :: kcs, hkw, ?_⟩
    simp only [hcodeOnly, Bool.and_eq_true, Bool.or_eq_true]
    constructor
    · rcases hstart with h | h
      · exact Or.inl h
      · exact Or.inr (by simpa using h)
    · rcases hstart with h | h
      · obtain ⟨t, ht⟩ := startsWith_iff_append.mp h
        refine Or.inl (Or.inr ?_)
        have hdecomp := lstrip_decomp (rstrip line)
        rw [ht] at hdecomp
        rw [hdecomp]
        exact containsSub_of_suffix
          (containsSub_of_startsWith (startsWith_iff_append.mpr ⟨t, rfl⟩)) _
      · refine Or.inl (Or.inl ?_)
        have hdecomp := lstrip_decomp (rstrip line)
        rw [h] at hdecomp
        rw [hdecomp]
        exact endsWith_append_self _ _
  have h3 : startsWith [dq, dq, dq] (lstrip (rstrip line)) = false := by
    rw [ht']; exact startsWith_cons_ne hh1 _ _
  have h4 : startsWith [sq, sq, sq] (lstrip (rstrip line)) = false := by
    rw [ht']; exact startsWith_cons_ne hh2 _ _
  have h5 : startsWith ['#'] (lstrip (rstrip line)) = false := by
    rw [ht']; exact startsWith_cons_ne hh3 _ _
  have h6 : startsWith ['@'] (lstrip (rstrip line)) = false := by
    rw [ht']; exact startsWith_cons_ne hh4 _ _
  simp only [addSemicolonsLine]
  rw [if_neg hb, hm, if_pos rfl, h3, h4]
  rw [if_neg (by simp), h5, if_neg (by simp), h6, if_neg (by simp)]
  rw [hnc]
  rw [if_neg (by simp : ¬(false = true))]
  rw [if_neg (by rw [endsOpenSpace_rstrip]; simp)]
  rw [replaceSub_self (show ['(', ' '] ≠ [] by decide),
    replaceSub_self (show ['[', ' '] ≠ [] by decide),
    replaceSub_self (show [obr, ' '] ≠ [] by decide), ite_self]
  rw [hd]
  rw [if_neg (by rw [endsOpenSpace_rstrip]; simp)]
  rw [findCommentPos_no_hash hnohash]
  rw [if_neg (by decide : ¬((-1 : Int) > 0))]
  rw [hctrl, if_pos rfl]

/-- C3 witness: the amended theorem applied to a concrete `return` line. -/
theorem C3_witness :
    (addSemicolonsLine semiInit "  return x + 1".toList none).2 =
      "  return x + 1".toList :=
  C3_directive_no_terminator semiInit "  return x + 1".toList none
    "return".toList rfl rfl (by decide) (by decide) (by decide) (by decide)

/-! ## Claim theorems: the block collapser -/

theorem collectBlock_subset (cl : Char) (ls : List Str) :
    (∀ x ∈ (collectBlock cl ls).1, x ∈ ls) ∧
      (∀ cz, (collectBlock cl ls).2.1 = some cz → cz ∈ ls) ∧
      (∀ x ∈ (collectBlock cl ls).2.2, x ∈ ls) := by
  induction ls with
  | nil => exact ⟨by simp [collectBlock], by simp [collectBlock], by simp [collectBlock]⟩
  | cons l rest ih =>
    by_cases hc : containsChar cl l = true
    · refine ⟨by simp [collectBlock, hc], ?_, ?_⟩
      · intro cz hcz
        simp [collectBlock, hc] at hcz
        simp [hcz]
      · intro x hx
        simp [collectBlock, hc] at hx
        simp [hx]
    · obtain ⟨ih1, ih2, ih3⟩ := ih
      refine ⟨?_, ?_, ?_⟩
      · intro x hx
        simp [collectBlock, hc] at hx
        rcases hx with rfl | hx
        · simp
        · simp [ih1 x hx]
      · intro cz hcz
        simp only [collectBlock, hc] at hcz
        simp [ih2 cz (by simpa using hcz)]
      · intro x hx
        simp only [collectBlock, hc] at hx
        simp [ih3 x (by simpa using hx)]

theorem collapseDecision_mem (maxLen : Nat) (line prefixPart : Str) (cl : Char)
    (firstSeg : Str) (pre : List Str) (closeLine : Str) :
    ∀ l ∈ collapseDecision maxLen line prefixPart cl firstSeg pre closeLine,
      l = line ∨ l ∈ pre ∨ l = closeLine ∨ l.length ≤ maxLen := by
  intro l hl
  simp only [collapseDecision] at hl
  split at hl
  · split at hl
    · next hcond =>
      simp only [List.mem_singleton] at hl
      subst hl
      exact Or.inr (Or.inr (Or.inr hcond.2))
    · simp only [List.mem_cons, List.mem_append, List.mem_singleton] at hl
      rcases hl with (rfl | hl) | rfl | hF
      · exact Or.inl rfl
      · exact Or.inr (Or.inl hl)
      · exact Or.inr (Or.inr (Or.inl rfl))
      · exact absurd hF (List.not_mem_nil l)
  · split at hl
    · next hcond =>
      simp only [List.mem_singleton] at hl
      subst hl
      exact Or.inr (Or.inr (Or.inr hcond.2))
    · simp only [List.mem_cons, List.mem_append, List.mem_singleton] at hl
      rcases hl with (rfl | hl) | rfl | hF
      · exact Or.inl rfl
      · exact Or.inr (Or.inl hl)
      · exact Or.inr (Or.inr (Or.inl rfl))
      · exact absurd hF (List.not_mem_nil l)

theorem cmbGo_mem (maxLen : Nat) :
    ∀ (fuel : Nat) (it : Option Str) (ls : List Str) (l : Str),
      l ∈ cmbGo maxLen fuel it ls → l ∈ ls ∨ l.length ≤ maxLen := by
  intro fuel
  induction fuel with
  | zero => intro it ls l hl; exact Or.inl hl
  | succ f ih =>
    intro it ls l hl
    cases ls with
    | nil => simp [cmbGo] at hl
    | cons line rest =>
      cases it with
      | some q =>
        simp only [cmbGo, List.mem_cons] at hl
        rcases hl with rfl | hl
        · exact Or.inl (List.mem_cons_self _ _)
        · rcases ih _ rest l hl with h | h
          · exact Or.inl (List.mem_cons_of_mem _ h)
          · exact Or.inr h
      | none =>
        have hstepIt : ∀ (it' : Option Str), l ∈ line :: cmbGo maxLen f it' rest →
            l ∈ line :: rest ∨ l.length ≤ maxLen := by
          intro it' hl'
          rcases List.mem_cons.mp hl' with rfl | hl''
          · exact Or.inl (List.mem_cons_self _ _)
          · rcases ih it' rest l hl'' with h | h
            · exact Or.inl (List.mem_cons_of_mem _ h)
            · exact Or.inr h
        simp only [cmbGo] at hl
        split at hl
        · exact hstepIt _ hl
        split at hl
        · exact hstepIt _ hl
        split at hl
        · exact hstepIt _ hl
        split at hl
        · exact hstepIt _ hl
        split at hl
        · exact hstepIt _ hl
        split at hl
        · rename_i brcl pos heq
          split at hl
          · rename_i closeLine hcz
            rcases List.mem_append.mp hl with hdec | hrec
            · have hdm := collapseDecision_mem maxLen line
                (line.take (pos.toNat + 1)) brcl.2 (line.drop (pos.toNat + 1))
                (collectBlock brcl.2 rest).1 closeLine l hdec
              obtain ⟨hs1, hs2, hs3⟩ := collectBlock_subset brcl.2 rest
              rcases hdm with rfl | h | rfl | h
              · exact Or.inl (List.mem_cons_self _ _)
              · exact Or.inl (List.mem_cons_of_mem _ (hs1 l h))
              · exact Or.inl (List.mem_cons_of_mem _ (hs2 l hcz))
              · exact Or.inr h
            · obtain ⟨hs1, hs2, hs3⟩ := collectBlock_subset brcl.2 rest
              rcases ih none _ l hrec with h | h
              · exact Or.inl (List.mem_cons_of_mem _ (hs3 l h))
              · exact Or.inr h
          · exact hstepIt _ hl
        · exact hstepIt _ hl

/-- C4: the collapse length guard.  (a) Every line emitted by the collapser
loop is an original input line or has length at most `max_len` — a block
is collapsed only when the flattened line fits.  (b) Whenever the
flattened line exceeds `max_len`, the collapse decision emits exactly the
original lines of the block, line breaks intact.  (c) The top-level
function is the joined loop output. -/
theorem C4_collapse_length_guard :
    (∀ (maxLen fuel : Nat) (it : Option Str) (ls : List Str) (l : Str),
        l ∈ cmbGo maxLen fuel it ls → l ∈ ls ∨ l.length ≤ maxLen) ∧
    (∀ (maxLen : Nat) (line prefixPart : Str) (cl : Char) (firstSeg : Str)
        (pre : List Str) (closeLine : Str) (collapsed : Str),
        collapsed = prefixPart ++ ' ' ::
            pyStrip (joinSep ' '
              ((firstSeg :: pre ++
                [closeLine.take (findChar cl closeLine).toNat]).map pyStrip)) ++
            ' ' :: [cl] ++
            (if pyStrip (closeLine.drop ((findChar cl closeLine).toNat + 1)) ≠ []
              then ' ' :: pyStrip (closeLine.drop ((findChar cl closeLine).toNat + 1))
              else []) →
        ¬collapsed.length ≤ maxLen →
        collapseDecision maxLen line prefixPart cl firstSeg pre closeLine =
          line :: pre ++ [closeLine]) ∧
    (∀ (code : Str) (maxLen : Nat),
        collapse_multiline_blocks code maxLen =
          joinLines (cmbGo maxLen (splitLines code).length none (splitLines code))) := by
  refine ⟨cmbGo_mem, ?_, fun _ _ => rfl⟩
  intro maxLen line prefixPart cl firstSeg pre closeLine collapsed hcoll hlong
  simp only [collapseDecision]
  split
  · next hsuf =>
    split
    · next hcond =>
      exfalso
      apply hlong
      rw [hcoll, if_pos hsuf]
      exact hcond.2
    · rfl
  · next hsuf =>
    split
    · next hcond =>
      exfalso
      apply hlong
      rw [hcoll, if_neg hsuf]
      exact hcond.2
    · rfl

/-- C4 witness: the guard applied to a concrete five-line block with
`max_len = 5` (the flattened line has length 12) — the original lines are
emitted — and membership instantiated on a concrete collapsed output. -/
theorem C4_witness :
    collapseDecision 5 "x = [".toList "x = [".toList ']' [] ["1,".toList]
        "]".toList = ["x = [".toList, "1,".toList, "]".toList] ∧
      ("x = [ 1 ]".toList ∈ splitLines "x = [\n1\n]".toList ∨
        "x = [ 1 ]".toList.length ≤ 200) := by
  constructor
  · exact C4_collapse_length_guard.2.1 5 "x = [".toList "x = [".toList ']'
      [] ["1,".toList] "]".toList "x = [ 1, ]".toList (by decide) (by decide)
  · exact C4_collapse_length_guard.1 200 3 none (splitLines "x = [\n1\n]".toList)
      "x = [ 1 ]".toList (by decide)

/-- C8 (amended): malformed nesting never aborts the rewriter —
`add_semicolons` is total and emits exactly one output line per input
line, whatever the bracket balance (the depth counter may go negative
without effect on totality).  It does not, however, pass the offending
region through unchanged, and no warning about nesting is surfaced. -/
theorem C8_line_count_preserved :
    ∀ (st : SemiState) (ls : List Str), (addSemicolonsGo st ls).length = ls.length := by
  intro st ls
  induction ls generalizing st with
  | nil => rfl
  | cons l rest ih =>
    simp only [addSemicolonsGo, List.length_cons]
    rw [ih]

/-! ## Claim theorems: the blank-line collapser -/

theorem collapseBlankLine_some (q : Str) (b : Nat) (line : Str) :
    collapseBlankLine ⟨some q, b⟩ line =
      (if containsSub q line then (⟨none, 0⟩ : BlankState) else ⟨some q, b⟩, [line]) := rfl

theorem collapseBlankLine_blank (b : Nat) (line : Str) (h : pyStrip line = []) :
    collapseBlankLine ⟨none, b⟩ line =
      (⟨none, b + 1⟩, if b + 1 = 1 then [line] else []) := by
  simp only [collapseBlankLine, h]
  rw [if_neg (by decide), if_neg (by decide), if_neg (by decide), if_neg (by decide)]
  simp

theorem collapseBlankLine_notBlank (line : Str) (h : ¬pyStrip line = []) :
    ∃ q, ∀ b : Nat, collapseBlankLine ⟨none, b⟩ line = (⟨q, 0⟩, [line]) := by
  by_cases h1 : containsSub [dq, dq, dq] (pyStrip line) = true ∧
      countSub [dq, dq, dq] (pyStrip line) = 1
  · exact ⟨some [dq, dq, dq], fun b => by simp only [collapseBlankLine, if_pos h1]⟩
  by_cases h2 : containsSub [dq, dq, dq] (pyStrip line) = true ∧
      countSub [dq, dq, dq] (pyStrip line) = 2
  · exact ⟨none, fun b => by
      simp only [collapseBlankLine, if_neg h1, if_pos h2]⟩
  by_cases h3 : containsSub [sq, sq, sq] (pyStrip line) = true ∧
      countSub [sq, sq, sq] (pyStrip line) = 1
  · exact ⟨some [sq, sq, sq], fun b => by
      simp only [collapseBlankLine, if_neg h1, if_neg h2, if_pos h3]⟩
  by_cases h4 : containsSub [sq, sq, sq] (pyStrip line) = true ∧
      countSub [sq, sq, sq] (pyStrip line) = 2
  · exact ⟨none, fun b => by
      simp only [collapseBlankLine, if_neg h1, if_neg h2, if_neg h3, if_pos h4]⟩
  · exact ⟨none, fun b => by
      simp only [collapseBlankLine, if_neg h1, if_neg h2, if_neg h3, if_neg h4,
        if_neg h]⟩

theorem collapseBlankLine_out (st : BlankState) (line : Str) :
    (collapseBlankLine st line).2 = [line] ∨ (collapseBlankLine st line).2 = [] := by
  obtain ⟨it, b⟩ := st
  cases it with
  | some q => exact Or.inl (by rw [collapseBlankLine_some])
  | none =>
    by_cases h : pyStrip line = []
    · rw [collapseBlankLine_blank b line h]
      by_cases hb : b + 1 = 1
      · exact Or.inl (by simp [hb])
      · exact Or.inr (by simp [hb])
    · obtain ⟨q, hq⟩ := collapseBlankLine_notBlank line h
      exact Or.inl (by rw [hq b])

theorem collapseBlankGo_sublist (st : BlankState) (ls : List Str) :
    (collapseBlankGo st ls).Sublist ls := by
  induction ls generalizing st with
  | nil => simp [collapseBlankGo]
  | cons l rest ih =>
    simp only [collapseBlankGo]
    rcases collapseBlankLine_out st l with h | h
    · rw [h]
      exact (ih _).cons₂ l
    · rw [h]
      exact (ih _).cons l

theorem collapseBlankGo_mem_nonBlank (st : BlankState) (ls : List Str) (l : Str)
    (hmem : l ∈ ls) (hnb : ¬pyStrip l = []) : l ∈ collapseBlankGo st ls := by
  induction ls generalizing st with
  | nil => cases hmem
  | cons x rest ih =>
    simp only [collapseBlankGo]
    rcases List.mem_cons.mp hmem with rfl | hmem'
    · have hout : (collapseBlankLine st l).2 = [l] := by
        obtain ⟨it, b⟩ := st
        cases it with
        | some q => rw [collapseBlankLine_some]
        | none =>
          obtain ⟨q, hq⟩ := collapseBlankLine_notBlank l hnb
          rw [hq b]
      rw [hout]
      exact List.mem_cons_self _ _
    · exact List.mem_append_right _ (ih _ hmem')

theorem collapseBlankGo_sim (ls : List Str) :
    ∀ (b1 b2 : Nat) (it : Option Str), b2 = min b1 1 →
      collapseBlankGo ⟨it, b2⟩ (collapseBlankGo ⟨it, b1⟩ ls) =
        collapseBlankGo ⟨it, b1⟩ ls := by
  induction ls with
  | nil => intro b1 b2 it hb; rfl
  | cons line rest ih =>
    intro b1 b2 it hb
    cases it with
    | some q =>
      rw [show collapseBlankGo ⟨some q, b1⟩ (line :: rest) =
          line :: collapseBlankGo (if containsSub q line then (⟨none, 0⟩ : BlankState)
            else ⟨some q, b1⟩) rest by
        simp only [collapseBlankGo, collapseBlankLine_some]
        rfl]
      rw [show collapseBlankGo ⟨some q, b2⟩ (line :: collapseBlankGo
            (if containsSub q line then (⟨none, 0⟩ : BlankState) else ⟨some q, b1⟩) rest) =
          line :: collapseBlankGo (if containsSub q line then (⟨none, 0⟩ : BlankState)
              else ⟨some q, b2⟩)
            (collapseBlankGo (if containsSub q line then (⟨none, 0⟩ : BlankState)
              else ⟨some q, b1⟩) rest) by
        simp only [collapseBlankGo, collapseBlankLine_some]
        rfl]
      by_cases hc : containsSub q line = true
      · rw [if_pos hc, if_pos hc, ih 0 0 none (by omega)]
      · rw [if_neg hc, if_neg hc, ih b1 b2 (some q) hb]
    | none =>
      by_cases hbl : pyStrip line = []
      · by_cases hb1 : b1 = 0
        · subst hb1
          have h2 : b2 = 0 := by omega
          subst h2
          rw [show collapseBlankGo ⟨none, 0⟩ (line :: rest) =
              line :: collapseBlankGo ⟨none, 1⟩ rest by
            simp only [collapseBlankGo, collapseBlankLine_blank 0 line hbl]
            rfl]
          rw [show collapseBlankGo ⟨none, 0⟩ (line :: collapseBlankGo ⟨none, 1⟩ rest) =
              line :: collapseBlankGo ⟨none, 1⟩ (collapseBlankGo ⟨none, 1⟩ rest) by
            simp only [collapseBlankGo, collapseBlankLine_blank 0 line hbl]
            rfl]
          rw [ih 1 1 none (by omega)]
        · have hbe : ¬b1 + 1 = 1 := by omega
          have h2 : b2 = 1 := by omega
          subst h2
          rw [show collapseBlankGo ⟨none, b1⟩ (line :: rest) =
              collapseBlankGo ⟨none, b1 + 1⟩ rest by
            simp only [collapseBlankGo, collapseBlankLine_blank b1 line hbl, if_neg hbe]
            rfl]
          exact ih (b1 + 1) 1 none (by omega)
      · obtain ⟨q, hq⟩ := collapseBlankLine_notBlank line hbl
        rw [show collapseBlankGo ⟨none, b1⟩ (line :: rest) =
            line :: collapseBlankGo ⟨q, 0⟩ rest by
          simp only [collapseBlankGo, hq b1]
          rfl]
        rw [show collapseBlankGo ⟨none, b2⟩ (line :: collapseBlankGo ⟨q, 0⟩ rest) =
            line :: collapseBlankGo ⟨q, 0⟩ (collapseBlankGo ⟨q, 0⟩ rest) by
          simp only [collapseBlankGo, hq b2]
          rfl]
        rw [ih 0 0 q (by omega)]

theorem splitLinesGo_ne_nil (s : Str) : splitLinesGo s ≠ [] := by
  cases s with
  | nil => simp [splitLinesGo]
  | cons c cs =>
    simp only [splitLinesGo]
    split
    · simp
    · split <;> simp

theorem splitLinesGo_no_newline (s : Str) :
    ∀ l ∈ splitLinesGo s, containsChar '\n' l = false := by
  induction s with
  | nil => intro l hl; simp [splitLinesGo] at hl; simp [hl, containsChar]
  | cons c cs ih =>
    intro l hl
    simp only [splitLinesGo] at hl
    by_cases hc : c = '\n'
    · rw [if_pos hc] at hl
      rcases List.mem_cons.mp hl with rfl | hl'
      · simp [containsChar]
      · exact ih l hl'
    · rw [if_neg hc] at hl
      rcases hsplit : splitLinesGo cs with _ | ⟨x, xs⟩
      · exact absurd hsplit (splitLinesGo_ne_nil cs)
      · rw [hsplit] at hl
        rcases List.mem_cons.mp hl with rfl | hl'
        · have hx : containsChar '\n' x = false := ih x (by rw [hsplit]; simp)
          simp [containsChar, hc, hx]
        · exact ih l (by rw [hsplit]; exact List.mem_cons_of_mem _ hl')

theorem splitLinesGo_single {l : Str} (h : containsChar '\n' l = false) :
    splitLinesGo l = [l] := by
  induction l with
  | nil => rfl
  | cons c cs ih =>
    rw [containsChar, Bool.or_eq_false_iff] at h
    have hc : ¬c = '\n' := by have := h.1; simpa using this
    simp only [splitLinesGo, if_neg hc, ih h.2]

theorem splitLinesGo_append {l : Str} (t : Str) (h : containsChar '\n' l = false) :
    splitLinesGo (l ++ '\n' :: t) = l :: splitLinesGo t := by
  induction l with
  | nil => simp [splitLinesGo]
  | cons c cs ih =>
    rw [containsChar, Bool.or_eq_false_iff] at h
    have hc : ¬c = '\n' := by have := h.1; simpa using this
    simp only [List.cons_append, splitLinesGo, if_neg hc, List.append_eq]
    rw [ih h.2]

theorem splitLines_joinLines {ls : List Str} (hne : ls ≠ [])
    (h : ∀ l ∈ ls, containsChar '\n' l = false) :
    splitLines (joinLines ls) = ls := by
  induction ls with
  | nil => exact absurd rfl hne
  | cons l rest ih =>
    cases rest with
    | nil =>
      simp only [joinLines, splitLines]
      exact splitLinesGo_single (h l (by simp))
    | cons l2 rest2 =>
      simp only [joinLines, splitLines]
      rw [splitLinesGo_append _ (h l (by simp))]
      have := ih (by simp) (fun x hx => h x (List.mem_cons_of_mem _ hx))
      simp only [splitLines] at this
      rw [this]

theorem collapseBlankLine_zero_out (l : Str) :
    (collapseBlankLine ⟨none, 0⟩ l).2 = [l] := by
  by_cases h : pyStrip l = []
  · rw [collapseBlankLine_blank 0 l h]
    simp
  · obtain ⟨q, hq⟩ := collapseBlankLine_notBlank l h
    rw [hq 0]

/-- C9: blank-line collapsing.  (a) The output lines are a sublist of the
input lines (nothing is altered or reordered, lines are only dropped);
(b) non-blank lines are never dropped; (c) every line processed inside a
triple-quoted span is kept — blank lines inside spans are all preserved;
(d) outside a span a blank line is kept exactly when it is the first of
its run (the consecutive-blank counter is zero) and dropped otherwise;
(e) the function is idempotent: a second pass finds nothing more to drop,
so no run of two or more blank lines outside a span survives. -/
theorem C9_blank_line_collapse :
    (∀ (st : BlankState) (ls : List Str), (collapseBlankGo st ls).Sublist ls) ∧
    (∀ (st : BlankState) (ls : List Str) (l : Str),
        l ∈ ls → ¬pyStrip l = [] → l ∈ collapseBlankGo st ls) ∧
    (∀ (q : Str) (b : Nat) (line : Str),
        (collapseBlankLine ⟨some q, b⟩ line).2 = [line]) ∧
    (∀ (b : Nat) (line : Str), pyStrip line = [] →
        (collapseBlankLine ⟨none, b⟩ line).2 =
          if b + 1 = 1 then [line] else []) ∧
    (∀ code : Str,
        collapse_blank_lines (collapse_blank_lines code) =
          collapse_blank_lines code) := by
  refine ⟨collapseBlankGo_sublist, collapseBlankGo_mem_nonBlank,
    fun q b line => by rw [collapseBlankLine_some],
    fun b line h => by rw [collapseBlankLine_blank b line h], ?_⟩
  intro code
  unfold collapse_blank_lines
  have hsplit : splitLines (joinLines (collapseBlankGo ⟨none, 0⟩ (splitLines code))) =
      collapseBlankGo ⟨none, 0⟩ (splitLines code) := by
    apply splitLines_joinLines
    · rcases hL : splitLines code with _ | ⟨l, rest⟩
      · exact absurd hL (splitLinesGo_ne_nil code)
      · simp only [collapseBlankGo, collapseBlankLine_zero_out]
        simp
    · intro l hl
      exact splitLinesGo_no_newline code l
        ((collapseBlankGo_sublist _ _).mem hl)
  rw [hsplit, collapseBlankGo_sim (splitLines code) 0 0 none (by omega)]

/-- C9 witness: the conjuncts instantiated on concrete lines — a blank
inside a span is kept, the first blank of an outside run is kept, the
second is dropped, and a concrete non-blank line survives. -/
theorem C9_witness :
    ((collapseBlankGo ⟨none, 0⟩ ["a".toList, [], [], "b".toList]).Sublist
        ["a".toList, [], [], "b".toList]) ∧
      "b".toList ∈ collapseBlankGo ⟨none, 0⟩ ["a".toList, [], [], "b".toList] ∧
      (collapseBlankLine ⟨some [dq, dq, dq], 0⟩ []).2 = [([] : Str)] ∧
      (collapseBlankLine ⟨none, 0⟩ []).2 = [([] : Str)] ∧
      (collapseBlankLine ⟨none, 1⟩ []).2 = [] ∧
      collapse_blank_lines (collapse_blank_lines "a\n\n\n\nb".toList) =
        collapse_blank_lines "a\n\n\n\nb".toList := by
  refine ⟨C9_blank_line_collapse.1 _ _,
    C9_blank_line_collapse.2.1 _ _ _ (by decide) (by decide),
    C9_blank_line_collapse.2.2.1 [dq, dq, dq] 0 [], ?_, ?_,
    C9_blank_line_collapse.2.2.2.2 _⟩
  · rw [C9_blank_line_collapse.2.2.2.1 0 [] (by decide)]
    decide
  · rw [C9_blank_line_collapse.2.2.2.1 1 [] (by decide)]
    decide

/-! ## Restricted idempotence of the pipeline (C1, amended)

The counterexample `x = [ 1\n ]` refutes idempotence in general.  The
amended claim restricts to single-line inputs over a plain alphabet
(letters other than `f`, digits, spaces, `=`): on those the pipeline acts
as `rstrip`-and-append-a-terminator, and a second pass changes nothing. -/

/-- The restricted alphabet for the amended idempotence claim. -/
def plainChar (c : Char) : Bool :=
  (c.isAlpha && !(c = 'f')) || c.isDigit || c = ' ' || c = '='

theorem containsChar_iff_mem {c : Char} {s : Str} :
    containsChar c s = true ↔ c ∈ s := by
  induction s with
  | nil => simp [containsChar]
  | cons d ds ih =>
    rw [containsChar, Bool.or_eq_true, ih]
    simp only [decide_eq_true_eq, List.mem_cons]
    constructor
    · rintro (rfl | h)
      · exact Or.inl rfl
      · exact Or.inr h
    · rintro (rfl | h)
      · exact Or.inl rfl
      · exact Or.inr h

theorem containsChar_false_mono {c : Char} {s t : Str}
    (hsub : ∀ x ∈ t, x ∈ s) (h : containsChar c s = false) :
    containsChar c t = false := by
  cases hct : containsChar c t with
  | false => rfl
  | true =>
    have hc : c ∈ s := hsub c (containsChar_iff_mem.mp hct)
    rw [containsChar_iff_mem.mpr hc] at h
    exact absurd h (by decide)

theorem plain_no {s : Str} (hp : ∀ c ∈ s, plainChar c = true) {x : Char}
    (hx : plainChar x = false) : containsChar x s = false := by
  cases hc : containsChar x s with
  | false => rfl
  | true => exact absurd (hp x (containsChar_iff_mem.mp hc)) (by rw [hx]; simp)

theorem mem_rstrip {x : Char} {s : Str} (h : x ∈ rstrip s) : x ∈ s := by
  unfold rstrip at h
  rw [List.mem_reverse] at h
  exact List.mem_reverse.mp ((List.dropWhile_sublist _).mem h)

theorem mem_lstrip {x : Char} {s : Str} (h : x ∈ lstrip s) : x ∈ s :=
  (List.dropWhile_sublist _).mem h

theorem startsWith_head_mem {c : Char} {p t : Str}
    (h : startsWith (c :: p) t = true) : c ∈ t := by
  obtain ⟨u, rfl⟩ := startsWith_iff_append.mp h
  simp

theorem containsSub_head_mem {c : Char} {p t : Str}
    (h : containsSub (c :: p) t = true) : c ∈ t := by
  induction t with
  | nil => simp [containsSub, startsWith] at h
  | cons d ds ih =>
    rw [containsSub, Bool.or_eq_true] at h
    rcases h with h | h
    · exact startsWith_head_mem h
    · exact List.mem_cons_of_mem _ (ih h)

theorem endsWith_mem {p t : Str} (h : endsWith p t = true) :
    ∀ x ∈ p, x ∈ t := by
  obtain ⟨u, rfl⟩ := endsWith_iff_append.mp h
  intro x hx
  exact List.mem_append_right _ hx

theorem rfindCharGo_none {c : Char} {s : Str}
    (h : containsChar c s = false) : ∀ i, rfindCharGo c i s = -1 := by
  induction s with
  | nil => intro i; rfl
  | cons d ds ih =>
    intro i
    rw [containsChar, Bool.or_eq_false_iff] at h
    have hd : ¬d = c := by have := h.1; simpa using this
    rw [rfindCharGo, if_neg hd]
    exact ih h.2 (i + 1)

theorem rstrip_append_nonspace {c : Char} (h : pyIsSpace c = false) (u : Str) :
    rstrip (u ++ [c]) = u ++ [c] := by
  unfold rstrip
  rw [List.reverse_append]
  simp only [List.reverse_cons, List.reverse_nil, List.nil_append, List.cons_append,
    List.dropWhile_cons]
  rw [h]
  simp

theorem lstrip_append_ne {u : Str} (h : lstrip u ≠ []) (v : Str) :
    lstrip (u ++ v) = lstrip u ++ v := by
  induction u with
  | nil => exact absurd rfl h
  | cons c cs ih =>
    by_cases hc : pyIsSpace c = true
    · have h' : lstrip cs ≠ [] := by
        simpa [lstrip, List.dropWhile_cons, hc] using h
      calc lstrip (c :: cs ++ v) = lstrip (cs ++ v) := by
            simp [lstrip, List.dropWhile_cons, hc]
        _ = lstrip cs ++ v := ih h'
        _ = lstrip (c :: cs) ++ v := by simp [lstrip, List.dropWhile_cons, hc]
    · simp [lstrip, List.dropWhile_cons, hc]

theorem dropWhile_head_false {p : Char → Bool} {l : Str} {x : Char} {xs : Str}
    (h : List.dropWhile p l = x :: xs) : p x = false := by
  induction l with
  | nil => simp at h
  | cons d ds ih =>
    rw [List.dropWhile_cons] at h
    by_cases hd : p d = true
    · rw [if_pos hd] at h; exact ih h
    · rw [if_neg hd] at h
      injection h with h1 _
      rw [← h1]
      simpa using hd

theorem lstrip_rstrip_ne {s : Str} (h : ¬rstrip s = []) :
    ¬lstrip (rstrip s) = [] := by
  intro hl
  rcases hd : List.dropWhile pyIsSpace s.reverse with _ | ⟨x, xs⟩
  · exact h (by unfold rstrip; rw [hd]; rfl)
  · have hx : pyIsSpace x = false := dropWhile_head_false hd
    have hmem : x ∈ rstrip s := by
      unfold rstrip
      rw [hd, List.reverse_cons]
      exact List.mem_append_right _ (by simp)
    have hall := List.dropWhile_eq_nil_iff.mp hl
    have := hall x hmem
    rw [hx] at this
    exact Bool.false_ne_true this

theorem startsWith_append_singleton {p u : Str} {c : Char}
    (h : startsWith p (u ++ [c]) = true) :
    startsWith p u = true ∨ p = u ++ [c] := by
  obtain ⟨t, ht⟩ := startsWith_iff_append.mp h
  rcases List.eq_nil_or_concat t with rfl | ⟨t', d, rfl⟩
  · right
    rw [ht, List.append_nil]
  · left
    have ht2 : u ++ [c] = (p ++ t') ++ [d] := by
      rw [ht, List.append_assoc, List.concat_eq_append]
    have hinj := List.append_inj' ht2 rfl
    exact startsWith_iff_append.mpr ⟨t', hinj.1⟩

theorem fstrTryMatch_none {prev : Option Char} {s : Str}
    (h : containsChar 'f' s = false) : fstrTryMatch prev s = none := by
  rcases s with _ | ⟨c0, _ | ⟨c1, _ | ⟨c2, rest⟩⟩⟩
  · rfl
  · rfl
  · rfl
  · have hc0 : ¬c0 = 'f' := by
      intro hc
      rw [containsChar_iff_mem.mpr (by simp [hc])] at h
      exact absurd h (by decide)
    simp only [fstrTryMatch]
    rw [if_neg (fun hcond => hc0 hcond.1)]

theorem remove_useless_fstrings_id {s : Str}
    (h : containsChar 'f' s = false) : remove_useless_fstrings s = s := by
  unfold remove_useless_fstrings
  suffices hgen : ∀ prev, fstrGo prev 0 s = s from hgen none
  induction s with
  | nil => intro prev; rfl
  | cons c cs ih =>
    intro prev
    have h' := h
    rw [containsChar, Bool.or_eq_false_iff] at h'
    simp only [fstrGo, fstrTryMatch_none h]
    rw [ih h'.2 (some c)]

theorem alt1Match_none {s : Str} (h : containsChar dq s = false) :
    alt1Match s = none := by
  rcases s with _ | ⟨c1, _ | ⟨c2, _ | ⟨c3, _ | ⟨c4, _ | ⟨c5, rest⟩⟩⟩⟩⟩
  · rfl
  · rfl
  · rfl
  · rfl
  · rfl
  · have hc3 : ¬c3 = dq := by
      intro hc
      rw [containsChar_iff_mem.mpr (by simp [hc])] at h
      exact absurd h (by decide)
    simp only [alt1Match]
    rw [if_neg (fun hcond => hc3 hcond.2.2.1)]

theorem alt2Match_none {s : Str} (h : containsChar sq s = false) :
    alt2Match s = none := by
  rcases s with _ | ⟨c1, _ | ⟨c2, _ | ⟨c3, rest⟩⟩⟩
  · rfl
  · rfl
  · rfl
  · have hc1 : ¬c1 = sq := by
      intro hc
      rw [containsChar_iff_mem.mpr (by simp [hc])] at h
      exact absurd h (by decide)
    simp only [alt2Match]
    rw [if_neg (fun hcond => hc1 hcond.1)]

theorem strMatch_none {q : Char} {s : Str} (h : containsChar q s = false) :
    strMatch q s = none := by
  cases s with
  | nil => rfl
  | cons c rest =>
    have hc : ¬c = q := by
      intro hc
      rw [containsChar_iff_mem.mpr (by simp [hc])] at h
      exact absurd h (by decide)
    simp only [strMatch]
    rw [if_neg hc]

theorem stringPatternMatch_none {s : Str} (hdq : containsChar dq s = false)
    (hsq : containsChar sq s = false) : stringPatternMatch s = none := by
  simp only [stringPatternMatch, alt1Match_none hdq, alt2Match_none hsq,
    strMatch_none hdq, strMatch_none hsq]

theorem splitPartsGo_plain {s : Str} (hdq : containsChar dq s = false)
    (hsq : containsChar sq s = false) :
    ∀ acc, splitPartsGo 0 acc s = [some (acc.reverse ++ s)] := by
  induction s with
  | nil => intro acc; simp [splitPartsGo]
  | cons c cs ih =>
    intro acc
    have hdq' := hdq
    have hsq' := hsq
    rw [containsChar, Bool.or_eq_false_iff] at hdq' hsq'
    simp only [splitPartsGo, stringPatternMatch_none hdq hsq]
    rw [ih hdq'.2 hsq'.2 (c :: acc)]
    simp

theorem sub1G1core_none {s : Str} (h : containsChar '<' s = false) :
    sub1G1core s = none := by
  rcases s with _ | ⟨a, _ | ⟨b, _ | ⟨c, _ | ⟨d, r⟩⟩⟩⟩
  · rfl
  · rfl
  · rfl
  · rfl
  · have ha : ¬a = '<' := by
      intro hc
      rw [containsChar_iff_mem.mpr (by simp [hc])] at h
      exact absurd h (by decide)
    simp only [sub1G1core]
    rw [if_neg (fun hcond => ha hcond.1)]

theorem sub2G1core_none {s : Str} (h : containsChar '<' s = false) :
    sub2G1core s = none := by
  rcases s with _ | ⟨a, _ | ⟨b, _ | ⟨c, _ | ⟨d, r⟩⟩⟩⟩
  · rfl
  · rfl
  · rfl
  · rfl
  · have ha : ¬a = '<' := by
      intro hc
      rw [containsChar_iff_mem.mpr (by simp [hc])] at h
      exact absurd h (by decide)
    simp only [sub2G1core]
    rw [if_neg (fun hcond => ha hcond.1)]

theorem sub1TryMatch_none {s : Str} (h : containsChar '<' s = false) :
    sub1TryMatch s = none := by
  have hg1 : sub1G1 s = none := by
    unfold sub1G1 optSpace
    cases s with
    | nil => exact sub1G1core_none h
    | cons c r =>
      dsimp only
      by_cases hc : c = ' '
      · rw [if_pos hc, sub1G1core_none (by
          rw [containsChar, Bool.or_eq_false_iff] at h
          exact h.2)]
        exact sub1G1core_none h
      · rw [if_neg hc]
        exact sub1G1core_none h
  simp [sub1TryMatch, hg1]

theorem sub2TryMatch_none {s : Str} (h : containsChar '<' s = false) :
    sub2TryMatch s = none := by
  have hg1 : sub2G1 s = none := by
    unfold sub2G1 optSpace
    cases s with
    | nil => exact sub2G1core_none h
    | cons c r =>
      dsimp only
      by_cases hc : c = ' '
      · rw [if_pos hc, sub2G1core_none (by
          rw [containsChar, Bool.or_eq_false_iff] at h
          exact h.2)]
        exact sub2G1core_none h
      · rw [if_neg hc]
        exact sub2G1core_none h
  simp [sub2TryMatch, hg1]

theorem sub1Go_id {s : Str} (h : containsChar '<' s = false) :
    sub1Go 0 s = s := by
  induction s with
  | nil => rfl
  | cons c cs ih =>
    have h' := h
    rw [containsChar, Bool.or_eq_false_iff] at h'
    simp only [sub1Go, sub1TryMatch_none h]
    rw [ih h'.2]

theorem sub2Go_id {s : Str} (h : containsChar '<' s = false) :
    sub2Go 0 s = s := by
  induction s with
  | nil => rfl
  | cons c cs ih =>
    have h' := h
    rw [containsChar, Bool.or_eq_false_iff] at h'
    simp only [sub2Go, sub2TryMatch_none h]
    rw [ih h'.2]

theorem add_spaces_inside_brackets_id {s : Str}
    (hdq : containsChar dq s = false) (hsq : containsChar sq s = false)
    (hlt : containsChar '<' s = false) :
    add_spaces_inside_brackets s = s := by
  unfold add_spaces_inside_brackets
  rw [splitPartsGo_plain hdq hsq []]
  simp only [List.reverse_nil, List.nil_append, addSpacesParts]
  rw [if_pos (by decide)]
  simp only [addSpacesParts, List.append_nil]
  unfold add_spaces_to_segment
  rw [sub1Go_id hlt, sub2Go_id hlt]

theorem startsWith_false_of_no_char {c : Char} {p t line : Str}
    (hsub : ∀ x ∈ t, x ∈ line) (h : containsChar c line = false) :
    startsWith (c :: p) t = false := by
  cases hx : startsWith (c :: p) t with
  | false => rfl
  | true =>
    rw [containsChar_iff_mem.mpr (hsub c (startsWith_head_mem hx))] at h
    exact absurd h (by decide)

theorem endsWith_false_of_no_char {c : Char} {p t line : Str} (hc : c ∈ p)
    (hsub : ∀ x ∈ t, x ∈ line) (h : containsChar c line = false) :
    endsWith p t = false := by
  cases hx : endsWith p t with
  | false => rfl
  | true =>
    rw [containsChar_iff_mem.mpr (hsub c (endsWith_mem hx c hc))] at h
    exact absurd h (by decide)

theorem containsSub_false_of_no_char {c : Char} {p t line : Str}
    (hsub : ∀ x ∈ t, x ∈ line) (h : containsChar c line = false) :
    containsSub (c :: p) t = false := by
  cases hx : containsSub (c :: p) t with
  | false => rfl
  | true =>
    rw [containsChar_iff_mem.mpr (hsub c (containsSub_head_mem hx))] at h
    exact absurd h (by decide)

/-- The action of one `add_semicolons` iteration from the initial state on a
line free of quotes, comments, decorators, colons and brackets: blank lines
pass through, control-keyword lines and lines with a redundant ending are
right-stripped, everything else is right-stripped and terminated. -/
theorem addSemicolonsLine_plain (line : Str) (next? : Option Str)
    (hdq : containsChar dq line = false) (hsq : containsChar sq line = false)
    (hhash : containsChar '#' line = false) (hat : containsChar '@' line = false)
    (hcolon : containsChar ':' line = false) (hop : containsChar '(' line = false)
    (hob : containsChar '[' line = false) (hcu : containsChar obr line = false)
    (hcp : containsChar ')' line = false) :
    (addSemicolonsLine semiInit line next?).2 =
      if rstrip line = [] then line
      else if endsWithControl (rstrip line) (lstrip (rstrip line)) = true then
        rstrip line
      else if endsPunct (rstrip line) = true then rstrip line
      else rstrip line ++ [';'] := by
  have hsubl : ∀ x ∈ lstrip (rstrip line), x ∈ line :=
    fun x hx => mem_rstrip (mem_lstrip hx)
  have hsubr : ∀ x ∈ rstrip line, x ∈ line := fun x hx => mem_rstrip hx
  simp only [addSemicolonsLine]
  by_cases hb : rstrip line = []
  · rw [if_pos hb, if_pos hb]
  · rw [if_neg hb, if_neg hb,
      if_pos (show semiInit.inMultiline = false from rfl)]
    rw [startsWith_false_of_no_char hsubl hdq,
      startsWith_false_of_no_char hsubl hsq]
    rw [if_neg (by simp)]
    rw [startsWith_false_of_no_char hsubl hhash, if_neg (by simp)]
    rw [startsWith_false_of_no_char hsubl hat, if_neg (by simp)]
    rw [endsWith_false_of_no_char (show ':' ∈ [':', ';'] by simp) hsubr hcolon]
    rw [if_neg (by simp : ¬(false = true))]
    rw [if_neg (by rw [endsOpenSpace_rstrip]; simp)]
    rw [replaceSub_self (show ['(', ' '] ≠ [] by decide),
      replaceSub_self (show ['[', ' '] ≠ [] by decide),
      replaceSub_self (show [obr, ' '] ≠ [] by decide), ite_self]
    rw [show semiInit.bracketDepth = (0 : Int) from rfl]
    rw [if_neg (by rw [endsOpenSpace_rstrip]; simp)]
    rw [findCommentPos_no_hash (containsChar_false_mono hsubr hhash)]
    rw [if_neg (by decide : ¬((-1 : Int) > 0))]
    by_cases hc : endsWithControl (rstrip line) (lstrip (rstrip line)) = true
    · rw [if_pos hc, if_pos hc]
    · rw [if_neg hc, if_neg hc]
      by_cases hp : endsPunct (rstrip line) = true
      · rw [if_pos hp, if_pos hp]
      · rw [if_neg hp, if_neg hp]
        rw [endsWith_false_of_no_char (show ')' ∈ [' ', ')'] by simp) hsubr hcp]
        rw [if_neg (by simp)]

theorem containsChar_concat_false {x d : Char} {u : Str}
    (hu : containsChar x u = false) (hd : ¬x = d) :
    containsChar x (u ++ [d]) = false := by
  cases h : containsChar x (u ++ [d]) with
  | false => rfl
  | true =>
    rcases List.mem_append.mp (containsChar_iff_mem.mp h) with h1 | h1
    · rw [containsChar_iff_mem.mpr h1] at hu
      exact absurd hu (by decide)
    · exact absurd (by simpa using h1) hd

theorem endsPunct_concat_semi (u : Str) : endsPunct (u ++ [';']) = true := by
  unfold endsPunct
  rw [endsWith_iff_append.mpr ⟨u, rfl⟩]
  simp

theorem splitLines_no_newline {s : Str} (h : containsChar '\n' s = false) :
    splitLines s = [s] := by
  unfold splitLines
  induction s with
  | nil => rfl
  | cons c cs ih =>
    rw [containsChar, Bool.or_eq_false_iff] at h
    have hc : ¬c = '\n' := by have := h.1; simpa using this
    rw [splitLinesGo, if_neg hc, ih h.2]

theorem add_semicolons_single {s : Str} (h : containsChar '\n' s = false) :
    add_semicolons s = (addSemicolonsLine semiInit s none).2 := by
  unfold add_semicolons
  rw [splitLines_no_newline h]
  rfl

theorem collapse_multiline_single {u : Str} (h : containsChar '\n' u = false)
    (m : Nat) : collapse_multiline_blocks u m = u := by
  unfold collapse_multiline_blocks
  rw [splitLines_no_newline h]
  show joinLines (cmbGo m (0 + 1) none [u]) = u
  simp only [cmbGo]
  repeat' split
  all_goals simp_all [cmbGo, collectBlock, joinLines]

theorem collapse_blank_single {u : Str} (h : containsChar '\n' u = false) :
    collapse_blank_lines u = u := by
  unfold collapse_blank_lines
  rw [splitLines_no_newline h]
  simp only [collapseBlankGo, collapseBlankLine]
  repeat' split
  all_goals simp_all [collapseBlankGo, joinLines]

theorem addSemi_out_no {s : Str}
    (hdq : containsChar dq s = false) (hsq : containsChar sq s = false)
    (hh : containsChar '#' s = false) (hat : containsChar '@' s = false)
    (hcol : containsChar ':' s = false) (hop : containsChar '(' s = false)
    (hob : containsChar '[' s = false) (hcu : containsChar obr s = false)
    (hcp : containsChar ')' s = false) {x : Char}
    (h1 : containsChar x s = false) (h2 : ¬x = ';') :
    containsChar x (addSemicolonsLine semiInit s none).2 = false := by
  rw [addSemicolonsLine_plain s none hdq hsq hh hat hcol hop hob hcu hcp]
  have hr : containsChar x (rstrip s) = false :=
    containsChar_false_mono (fun y hy => mem_rstrip hy) h1
  split
  · exact h1
  · split
    · exact hr
    · split
      · exact hr
      · exact containsChar_concat_false hr h2

theorem formatPipeline_plain {t : Str}
    (hnl : containsChar '\n' t = false) (hf : containsChar 'f' t = false)
    (hdq : containsChar dq t = false) (hsq : containsChar sq t = false)
    (hh : containsChar '#' t = false) (hat : containsChar '@' t = false)
    (hcol : containsChar ':' t = false) (hop : containsChar '(' t = false)
    (hob : containsChar '[' t = false) (hcu : containsChar obr t = false)
    (hcp : containsChar ')' t = false) (hlt : containsChar '<' t = false) :
    formatPipeline t = (addSemicolonsLine semiInit t none).2 := by
  have hno : containsChar '\n' (addSemicolonsLine semiInit t none).2 = false :=
    addSemi_out_no hdq hsq hh hat hcol hop hob hcu hcp hnl (by decide)
  unfold formatPipeline
  rw [remove_useless_fstrings_id hf, add_spaces_inside_brackets_id hdq hsq hlt,
    add_semicolons_single hnl, collapse_multiline_single hno 200,
    collapse_blank_single hno]

/-- C1 (amended): the pipeline is idempotent on single-line inputs over the
plain alphabet (letters other than `f`, digits, spaces, `=`): on such input
the pipeline right-strips the line and, unless it is blank, ends in a
control keyword or ends in redundant punctuation, appends a `;`; a second
run leaves that output unchanged. -/
theorem C1_restricted_idempotent (s : Str) (hp : ∀ c ∈ s, plainChar c = true) :
    formatPipeline (formatPipeline s) = formatPipeline s := by
  have hnl : containsChar '\n' s = false := plain_no hp (by decide)
  have hf : containsChar 'f' s = false := plain_no hp (by decide)
  have hdq : containsChar dq s = false := plain_no hp (by decide)
  have hsq : containsChar sq s = false := plain_no hp (by decide)
  have hh : containsChar '#' s = false := plain_no hp (by decide)
  have hat : containsChar '@' s = false := plain_no hp (by decide)
  have hcol : containsChar ':' s = false := plain_no hp (by decide)
  have hop : containsChar '(' s = false := plain_no hp (by decide)
  have hob : containsChar '[' s = false := plain_no hp (by decide)
  have hcu : containsChar obr s = false := plain_no hp (by decide)
  have hcp : containsChar ')' s = false := plain_no hp (by decide)
  have hlt : containsChar '<' s = false := plain_no hp (by decide)
  have k : ∀ x : Char, containsChar x s = false → ¬x = ';' →
      containsChar x (addSemicolonsLine semiInit s none).2 = false :=
    fun _ h1 h2 => addSemi_out_no hdq hsq hh hat hcol hop hob hcu hcp h1 h2
  have hA := formatPipeline_plain hnl hf hdq hsq hh hat hcol hop hob hcu hcp hlt
  have hB := formatPipeline_plain (k '\n' hnl (by decide)) (k 'f' hf (by decide))
    (k dq hdq (by decide)) (k sq hsq (by decide)) (k '#' hh (by decide))
    (k '@' hat (by decide)) (k ':' hcol (by decide)) (k '(' hop (by decide))
    (k '[' hob (by decide)) (k obr hcu (by decide)) (k ')' hcp (by decide))
    (k '<' hlt (by decide))
  have hstab : (addSemicolonsLine semiInit
      (addSemicolonsLine semiInit s none).2 none).2 =
      (addSemicolonsLine semiInit s none).2 := by
    rw [addSemicolonsLine_plain _ none (k dq hdq (by decide)) (k sq hsq (by decide))
      (k '#' hh (by decide)) (k '@' hat (by decide)) (k ':' hcol (by decide))
      (k '(' hop (by decide)) (k '[' hob (by decide)) (k obr hcu (by decide))
      (k ')' hcp (by decide))]
    have hout := addSemicolonsLine_plain s none hdq hsq hh hat hcol hop hob hcu hcp
    by_cases hb : rstrip s = []
    · have ho : (addSemicolonsLine semiInit s none).2 = s := by
        rw [hout, if_pos hb]
      rw [ho, if_pos hb]
    · by_cases hc : endsWithControl (rstrip s) (lstrip (rstrip s)) = true
      · have ho : (addSemicolonsLine semiInit s none).2 = rstrip s := by
          rw [hout, if_neg hb, if_pos hc]
        rw [ho, rstrip_idem, if_neg hb, if_pos hc]
      · by_cases hq : endsPunct (rstrip s) = true
        · have ho : (addSemicolonsLine semiInit s none).2 = rstrip s := by
            rw [hout, if_neg hb, if_neg hc, if_pos hq]
          rw [ho, rstrip_idem, if_neg hb, if_neg hc, if_pos hq]
        · have ho : (addSemicolonsLine semiInit s none).2 = rstrip s ++ [';'] := by
            rw [hout, if_neg hb, if_neg hc, if_neg hq]
          rw [ho, rstrip_append_nonspace (by decide : pyIsSpace ';' = false)]
          rw [if_neg (show ¬(rstrip s ++ [';'] = []) by simp)]
          by_cases hc2 : endsWithControl (rstrip s ++ [';'])
              (lstrip (rstrip s ++ [';'])) = true
          · rw [if_pos hc2]
          · rw [if_neg hc2, if_pos (endsPunct_concat_semi (rstrip s))]
  rw [hA, hB, hstab]

/-- C1 witness: the amended idempotence theorem applied to the concrete
plain line `x = 1`. -/
theorem C1_witness :
    formatPipeline (formatPipeline "x = 1".toList) =
      formatPipeline "x = 1".toList :=
  C1_restricted_idempotent "x = 1".toList (by decide)

end PyFmt

-- smoke checks for the helpers (concrete evaluations)
example : PyFmt.rstrip "ab  ".toList = "ab".toList := by decide
example : PyFmt.countSub "\x22\x22\x22".toList "\x22\x22\x22\x22\x22".toList = 1 := by decide
example : PyFmt.countSub "aa".toList "aaaa".toList = 2 := by decide
example : PyFmt.rfindChar '[' "my_list = [;".toList = 10 := by decide
example : PyFmt.splitLines "a\nb\n".toList = ["a".toList, "b".toList, []] := by decide
example : PyFmt.joinLines ["a".toList, "b".toList, []] = "a\nb\n".toList := by decide
